import Mathlib

/-!
Verification of the `vector2d` compressed two-dimensional container.

The source is a single C++ header implementing `vector2d<T>`: a jagged
two-dimensional array that keeps the elements of all rows inside one shared
contiguous buffer `m_data`, with one lightweight descriptor per row
(`m_begin_index`, `m_size`, `m_capacity`).  This file gives a shallow
embedding of the storage-layout engine: the buffer is a `List α`, a row
descriptor is the `row_type` structure below, and every mutating member
function is translated into a pure function that returns the updated
descriptor(s) and buffer.  The `m_container` back-pointer of the C++ class is
replaced by passing the shared buffer explicitly to every row operation.

`size_t` arithmetic is modelled on `Nat`; at the few points where the C++
code can underflow an unsigned subtraction (`pop_back` on an empty row,
`last - first` for a reversed range) the wrap-around modulo `2 ^ 64` is made
explicit through `usub`.
-/

namespace ollib

/-- Modulus of `size_t` arithmetic: `2 ^ 64`. -/
def USZ : Nat := 2 ^ 64

/-- Subtraction of two `size_t` values.  For arguments below `2 ^ 64` (the
representable range) this agrees with C++ unsigned subtraction: it is the
ordinary difference when `b ≤ a` and wraps around modulo `2 ^ 64` otherwise. -/
def usub (a b : Nat) : Nat := if b ≤ a then a - b else a + USZ - b

/-- Descriptor of one row of the container (`vector2d<T>::row_type`).  The
row's elements live in the shared buffer at indices
`[m_begin_index, m_begin_index + m_size)`; the slots up to
`m_begin_index + m_capacity` are the row's reserved spare space. -/
structure row_type where
  m_begin_index : Nat
  m_size : Nat
  m_capacity : Nat
deriving DecidableEq

/-- `row_type::end_index()`: one past the last logical element. -/
def row_type.end_index (r : row_type) : Nat := r.m_begin_index + r.m_size

/-- `row_type::empty()`. -/
def row_type.isEmpty (r : row_type) : Bool := r.m_size == 0

/-- `row_type::update(ibegin, size)`: sets the offset and the length and keeps
the capacity at least as large as the new length
(`m_capacity = std::max(m_size, m_capacity)`). -/
def row_type.update (r : row_type) (ibegin size : Nat) : row_type :=
  { m_begin_index := ibegin, m_size := size, m_capacity := max size r.m_capacity }

/-- `row_type::shrink_to_fit()`: `m_capacity = m_size`. -/
def row_type.shrink_to_fit (r : row_type) : row_type :=
  { r with m_capacity := r.m_size }

/-- `row_type::clear()`: destroys the elements (a no-op on the value level)
and sets the length to zero; offset and capacity are retained.  When the row
is already empty the function returns immediately, which yields the same
descriptor. -/
def row_type.clear (r : row_type) : row_type := { r with m_size := 0 }

/-- Logical content of a row: the `m_size` buffer slots starting at
`m_begin_index` (what iterating from `begin()` to `end()` visits). -/
def row_content {α : Type} (data : List α) (r : row_type) : List α :=
  (data.drop r.m_begin_index).take r.m_size

/-- `vector2d<T>::append(count, value)`:
`m_data.resize(m_data.size() + count, value)` grows the buffer by `count`
slots filled with `value`. -/
def append {α : Type} (data : List α) (count : Nat) (value : α) : List α :=
  data ++ List.replicate count value

/-- Loop of `vector2d<T>::move_desc`: with `count` iterations left, the next
write is `m_data[dst + (count-1)] = m_data[src + (count-1)]`; the loop runs
from the high index down to `0`.  An out-of-range read returns `default`
(undefined behaviour in C++); an out-of-range write is dropped. -/
def move_desc_go {α : Type} [Inhabited α] (src dst : Nat) : Nat → List α → List α
  | 0, data => data
  | n + 1, data => move_desc_go src dst n (data.set (dst + n) (data.getD (src + n) default))

/-- `vector2d<T>::move_desc(ibegin, iend, new_ibegin)`: moves the inclusive
range `[ibegin, iend]` to start at `new_ibegin`, iterating from the high end
down.  The loop bound is `for (int i = iend - ibegin; i >= 0; --i)`, hence
`(iend + 1 - ibegin)` iterations when that difference is positive and none
otherwise; the arguments are taken as `Int` so that call sites such as
`iend = begin_index + diff - 1` keep their C++ value when `diff = 0`. -/
def move_desc {α : Type} [Inhabited α] (data : List α) (ibegin iend new_ibegin : Int) : List α :=
  move_desc_go ibegin.toNat new_ibegin.toNat (iend + 1 - ibegin).toNat data

/-- Loop of `vector2d<T>::move_asc`: with the running index `i`, performs
`m_data[dst + i] = m_data[src + i]` and continues upward. -/
def move_asc_go {α : Type} [Inhabited α] (src dst : Nat) : Nat → Nat → List α → List α
  | _, 0, data => data
  | i, n + 1, data => move_asc_go src dst (i + 1) n (data.set (dst + i) (data.getD (src + i) default))

/-- `vector2d<T>::move_asc(ibegin, iend, new_ibegin)`: moves the exclusive
range `[ibegin, iend)` to start at `new_ibegin`, iterating from the low end
up (`for (int i = 0; i < iend - ibegin; ++i)`). -/
def move_asc {α : Type} [Inhabited α] (data : List α) (ibegin iend new_ibegin : Int) : List α :=
  move_asc_go ibegin.toNat new_ibegin.toNat 0 (iend - ibegin).toNat data

/-- Loop writing an input range into the buffer
(`for (auto it = first; it != last; ++it) m_data[base + (it - first)] = *it`). -/
def write_range_go {α : Type} (base : Nat) : Nat → List α → List α → List α
  | _, [], data => data
  | i, v :: vs, data => write_range_go base (i + 1) vs (data.set (base + i) v)

/-- Writes the values `vals` into the buffer at positions
`base, base + 1, …` in order. -/
def write_range {α : Type} (data : List α) (base : Nat) (vals : List α) : List α :=
  write_range_go base 0 vals data

/-- Loop filling buffer slots `i, i+1, …` with a value
(`for (size_t i = base; i < base + count; ++i) m_data[i] = value`). -/
def fill_range_go {α : Type} (value : α) : Nat → Nat → List α → List α
  | _, 0, data => data
  | i, n + 1, data => fill_range_go value (i + 1) n (data.set i value)

/-- Fills the `count` buffer slots starting at `base` with `value`. -/
def fill_range {α : Type} (data : List α) (base count : Nat) (value : α) : List α :=
  fill_range_go value base count data

/-- Errors surfaced by the container (`std::out_of_range` is thrown both for
out-of-range positions and for the `input range is invalid` message; the two
messages are distinguished here). -/
inductive V2DError where
  | out_of_range
  | invalid_range
deriving DecidableEq

/-- `row_type::reserve(size)`.  A no-op when `size ≤ m_capacity`.  Otherwise,
if the row does not end at the buffer's end (`this->end() != m_data.end()`,
i.e. `m_begin_index + m_size ≠ data.length`), the buffer is extended by
`size` default-filled slots, the row's whole reserved span
`[begin_index, begin_index + capacity - 1]` is relocated to the new tail
`m_data.size() - size`, and the descriptor is updated; in both branches the
capacity is finally assigned to exactly `size`. -/
def row_type.reserve {α : Type} [Inhabited α] (r : row_type) (data : List α)
    (size : Nat) : row_type × List α :=
  if size ≤ r.m_capacity then (r, data)
  else
    if r.m_begin_index + r.m_size ≠ data.length then
      let data1 := append data size default
      let data2 := move_desc data1 (r.m_begin_index : Int)
        ((r.m_begin_index : Int) + r.m_capacity - 1)
        ((data1.length - size : Nat) : Int)
      let r1 := r.update (data2.length - size) r.m_size
      ({ r1 with m_capacity := size }, data2)
    else
      let data1 := append data (size - r.m_size) default
      ({ r with m_capacity := size }, data1)

/-- `row_type::insert(pos, first, last)` with `diff = pos - begin()` and the
input range given as the list `vals` (so `range = last - first = vals.length`).
Faithful to the source:
out-of-range `diff` throws, the (unsigned, hence never satisfied) check
`range < 0` follows, an empty range returns `pos`, and then one of three
cases runs: (1) the range fits in the spare capacity, (2) it does not fit and
the row is not at the buffer's end, (3) it does not fit and the row is at the
buffer's end.  Returns the updated descriptor, the updated buffer and the
offset of the first inserted element. -/
def row_type.insert {α : Type} [Inhabited α] (r : row_type) (data : List α)
    (diff : Nat) (vals : List α) : Except V2DError (row_type × List α × Nat) :=
  if diff > r.m_size then .error .out_of_range
  else
    let range := vals.length
    if range < 0 then .error .invalid_range
    else if range = 0 then .ok (r, data, diff)
    else if r.m_size + range ≤ r.m_capacity then
      let data1 := move_desc data ((r.m_begin_index : Int) + diff)
        ((r.end_index : Int) - 1) ((r.m_begin_index : Int) + diff + range)
      let data2 := write_range data1 (r.m_begin_index + diff) vals
      .ok (r.update r.m_begin_index (r.m_size + range), data2, diff)
    else
      if r.m_begin_index + r.m_size ≠ data.length then
        let data1 := append data (r.m_size + range) default
        let data2 := move_desc data1 (r.m_begin_index : Int)
          ((r.m_begin_index : Int) + diff - 1)
          ((data1.length - r.m_size - range : Nat) : Int)
        let data3 := write_range data2 (data2.length - r.m_size - range + diff) vals
        let data4 := move_desc data3 ((r.m_begin_index : Int) + diff)
          ((r.end_index : Int) - 1)
          ((data3.length - r.m_size + diff : Nat) : Int)
        .ok (r.update (data4.length - r.m_size - range) (r.m_size + range), data4, diff)
      else
        let data1 := append data range default
        let data2 := move_desc data1 ((r.m_begin_index : Int) + diff)
          ((r.end_index : Int) - 1) ((r.m_begin_index : Int) + diff + range)
        let data3 := write_range data2 (r.m_begin_index + diff) vals
        .ok (r.update r.m_begin_index (r.m_size + range), data3, diff)

/-- `row_type::erase(first, last)` with `fdiff = first - begin()` and
`ldiff = last - begin()`.  The two offsets are bounds-checked, the range
length is the unsigned difference `last - first` (`usub`, which wraps when
`last` precedes `first`, so the subsequent `range < 0` check never fires),
an empty range returns `last`'s offset, and otherwise the elements of
`[first, last)` are destroyed (a no-op on the value level), the tail
`[last, end)` is shifted down by `range` with `move_asc`, and the length
shrinks by `range` while the capacity is retained.  Returns the offset of
the first erased position. -/
def row_type.erase {α : Type} [Inhabited α] (r : row_type) (data : List α)
    (fdiff ldiff : Nat) : Except V2DError (row_type × List α × Nat) :=
  if fdiff > r.m_size then .error .out_of_range
  else if ldiff > r.m_size then .error .out_of_range
  else
    let range := usub ldiff fdiff
    if range < 0 then .error .invalid_range
    else if range = 0 then .ok (r, data, ldiff)
    else
      let data1 := move_asc data ((r.m_begin_index : Int) + ldiff)
        (r.end_index : Int) ((usub (r.m_begin_index + ldiff) range : Nat) : Int)
      .ok (r.update r.m_begin_index (usub r.m_size range), data1, fdiff)

/-- `row_type::push_back(value)`.  Fast path: with spare capacity the value
is written into slot `end_index()` directly.  Slow path (`m_size ==
m_capacity`): when the row is non-empty and does not end at the buffer's end,
the buffer grows by `m_size + 1` default slots and the row's content is
relocated to the new tail before the value is written into the last slot;
otherwise the value is simply appended (`emplace_back`).  Both slow branches
finish with `update(m_data.size() - m_size - 1, m_size + 1)`. -/
def row_type.push_back {α : Type} [Inhabited α] (r : row_type) (data : List α)
    (value : α) : row_type × List α :=
  if r.m_size < r.m_capacity then
    (r.update r.m_begin_index (r.m_size + 1), data.set r.end_index value)
  else
    if r.m_size ≠ 0 ∧ r.end_index ≠ data.length then
      let data1 := append data (r.m_size + 1) default
      let data2 := move_desc data1 (r.m_begin_index : Int)
        ((r.end_index : Int) - 1) ((data1.length - r.m_size - 1 : Nat) : Int)
      let data3 := data2.set (data2.length - 1) value
      (r.update (data3.length - r.m_size - 1) (r.m_size + 1), data3)
    else
      let data1 := data ++ [value]
      (r.update (data1.length - r.m_size - 1) (r.m_size + 1), data1)

/-- `row_type::pop_back()`: destroys the last element (a no-op on the value
level; reading `*(end() - 1)` on an empty row is undefined behaviour in C++)
and performs `update(begin_index, size - 1)`.  There is no emptiness check:
on an empty row the unsigned length `0 - 1` wraps around to `2 ^ 64 - 1`. -/
def row_type.pop_back (r : row_type) : row_type :=
  r.update r.m_begin_index (usub r.m_size 1)

/-- `row_type::resize(size, value)`.  Shrinking just lowers the length;
growing within capacity fills `[end_index, end_index + size - m_size)` with
`value`; growing beyond capacity appends `size` copies of `value`, relocates
the old content (if any) to the new tail (note the source moves the inclusive
range up to `begin_index + m_size`, one slot more than the content, which the
subsequent fill overwrites), fills the rest with `value`, and updates the
descriptor to the new tail span. -/
def row_type.resize {α : Type} [Inhabited α] (r : row_type) (data : List α)
    (size : Nat) (value : α) : row_type × List α :=
  if size ≤ r.m_size then
    (r.update r.m_begin_index size, data)
  else if size ≤ r.m_capacity then
    (r.update r.m_begin_index size, fill_range data r.end_index (size - r.m_size) value)
  else
    let data1 := append data size value
    if r.m_size ≠ 0 then
      let data2 := move_desc data1 (r.m_begin_index : Int)
        ((r.m_begin_index : Int) + r.m_size) ((data1.length - size : Nat) : Int)
      let data3 := fill_range data2 (data2.length - size + r.m_size) (size - r.m_size) value
      (r.update (data3.length - size) size, data3)
    else
      (r.update (data1.length - size) size, data1)

/-- The container itself (`vector2d<T>`): the ordered row sequence `m_rows`
and the shared backing buffer `m_data`. -/
structure vector2d (α : Type) where
  m_rows : List row_type
  m_data : List α
deriving DecidableEq

/-- The default-constructed container: no rows, empty buffer. -/
def vector2d.emptyV2d (α : Type) : vector2d α := { m_rows := [], m_data := [] }

/-- `vector2d(nrow)`: throws when `nrow` is zero, otherwise assigns `nrow`
copies of the empty descriptor `row_type(this, 0, 0, passkey)`. -/
def vector2d.mk_nrow (α : Type) (nrow : Nat) : Except V2DError (vector2d α) :=
  if nrow = 0 then .error .out_of_range
  else .ok { m_rows := List.replicate nrow ⟨0, 0, 0⟩, m_data := [] }

/-- `vector2d::push_back(arr)` (both the `initializer_list` and the
`std::vector` overloads): appends a new descriptor spanning
`[m_data.size(), m_data.size() + arr.size())` and copies the elements in. -/
def vector2d.push_back {α : Type} (v : vector2d α) (arr : List α) : vector2d α :=
  { m_rows := v.m_rows ++ [⟨v.m_data.length, arr.length, arr.length⟩],
    m_data := v.m_data ++ arr }

/-- `vector2d(nrow, ncol)`: throws when either count is zero, otherwise
pushes `nrow` rows of `ncol` default-valued elements. -/
def vector2d.mk_nrow_ncol (α : Type) [Inhabited α] (nrow ncol : Nat) :
    Except V2DError (vector2d α) :=
  if nrow = 0 ∨ ncol = 0 then .error .out_of_range
  else .ok ((List.range nrow).foldl
    (fun v _ => v.push_back (List.replicate ncol default)) (vector2d.emptyV2d α))

/-- `vector2d::nelement()`: sum of all rows' lengths. -/
def vector2d.nelement {α : Type} (v : vector2d α) : Nat :=
  v.m_rows.foldl (fun accumulator r => accumulator + r.m_size) 0

/-- Loop of `vector2d::compact()`: walks the rows in order carrying the new
buffer built so far (`acc`).  An empty row is skipped (`continue`) and its
descriptor is left untouched; a non-empty row has its live elements copied to
the end of the new buffer, then `shrink_to_fit()` and
`update(data.size() - size, size)` run on its descriptor. -/
def compact_go {α : Type} (olddata : List α) : List row_type → List α → List α × List row_type
  | [], acc => (acc, [])
  | r :: rest, acc =>
    if r.m_size = 0 then
      let p := compact_go olddata rest acc
      (p.1, r :: p.2)
    else
      let acc1 := acc ++ row_content olddata r
      let r1 := (r.shrink_to_fit).update (acc1.length - r.m_size) r.m_size
      let p := compact_go olddata rest acc1
      (p.1, r1 :: p.2)

/-- `vector2d::compact()`: rebuilds the buffer from the rows' live elements
and swaps it in. -/
def vector2d.compact {α : Type} (v : vector2d α) : vector2d α :=
  let p := compact_go v.m_data v.m_rows []
  { m_rows := p.2, m_data := p.1 }

/-- `vector2d::insert(pos, row)` with `pos` a row-sequence position and the
inserted row given by its logical content.  A fresh descriptor is made by
`update(m_data.size(), row.size())` on an empty passkey-constructed
descriptor, the row's elements are appended to the buffer tail, and the
descriptor is spliced into `m_rows` at `pos`.  There is no bounds check on
`pos`: `m_rows.insert` with a position past the end is undefined behaviour in
C++ (modelled by `List.insertIdx`, which leaves the list unchanged there),
and the buffer append has already happened. -/
def vector2d.insertRow {α : Type} (v : vector2d α) (pos : Nat) (rcontent : List α) :
    vector2d α :=
  let tmp_row := (row_type.mk 0 0 0).update v.m_data.length rcontent.length
  { m_rows := v.m_rows.insertIdx pos tmp_row, m_data := v.m_data ++ rcontent }

/-- `vector2d::erase(first, last)` with row-sequence offsets
`fdiff = first - begin()` and `ldiff = last - begin()`.  Both offsets are
checked against `m_rows.size()`; the range length is the unsigned difference
(`usub`), so the `range < 0` check never fires; an empty range returns
`last`; otherwise the erased rows are cleared (their elements are destroyed,
which leaves the buffer values in place) and their descriptors are removed
from the sequence.  Returns the offset of the first erased position. -/
def vector2d.eraseRows {α : Type} (v : vector2d α) (fdiff ldiff : Nat) :
    Except V2DError (vector2d α × Nat) :=
  if fdiff > v.m_rows.length then .error .out_of_range
  else if ldiff > v.m_rows.length then .error .out_of_range
  else
    let range := usub ldiff fdiff
    if range < 0 then .error .invalid_range
    else if range = 0 then .ok (v, ldiff)
    else
      .ok ({ v with m_rows := v.m_rows.take fdiff ++ v.m_rows.drop ldiff }, fdiff)

/-- `vector2d::pop_back()`: clears the last row (destroying its elements, a
value-level no-op) and removes its descriptor.  Calling it on an empty
container is undefined behaviour in C++ (`m_rows.back()`); the model requires
no rows to change in that case. -/
def vector2d.pop_backRow {α : Type} (v : vector2d α) : vector2d α :=
  { v with m_rows := (v.m_rows.set (v.m_rows.length - 1)
      ((v.m_rows.getD (v.m_rows.length - 1) ⟨0, 0, 0⟩).clear)).dropLast }

/-- `vector2d::clear()`: clears every row, the buffer and the row sequence. -/
def vector2d.clearAll {α : Type} (_ : vector2d α) : vector2d α :=
  { m_rows := [], m_data := [] }

/-- `vector2d::resize(size)`: resizes the row sequence, filling with the
empty passkey-constructed descriptor `(0, 0, 0)`. -/
def vector2d.resizeEmptyRows {α : Type} (v : vector2d α) (size : Nat) : vector2d α :=
  if size ≤ v.m_rows.length then { v with m_rows := v.m_rows.take size }
  else { v with m_rows := v.m_rows ++ List.replicate (size - v.m_rows.length) ⟨0, 0, 0⟩ }

/-- `vector2d::resize(size, row)` with the template row given by its logical
content `rcontent` and its capacity `rcap` (a genuine `row_type` always has
`rcontent.length ≤ rcap`).  `m_rows.resize(size, r)` first truncates or pads
with copies of the template descriptor; when growing, each new row `i` is
then re-pointed by `update(begin_index + (i - nrow) * row.size(), row.size())`
— note `update` keeps the copied template capacity when it exceeds the
length — and the template's elements are appended to the buffer once per new
row. -/
def vector2d.resizeRows {α : Type} (v : vector2d α) (size : Nat)
    (rcontent : List α) (rcap : Nat) : vector2d α :=
  let nrow := v.m_rows.length
  if size ≤ nrow then { v with m_rows := v.m_rows.take size }
  else
    let begin_index := v.m_data.length
    { m_rows := v.m_rows ++ (List.range (size - nrow)).map
        (fun k => (row_type.mk 0 rcontent.length rcap).update
          (begin_index + k * rcontent.length) rcontent.length),
      m_data := v.m_data ++ (List.replicate (size - nrow) rcontent).flatten }

/-- Applies a row-level operation's result to the container: replaces row `i`
and the buffer (the C++ row methods mutate `m_rows[i]` and `m_data` through
the back-pointer). -/
def vector2d.setRow {α : Type} (v : vector2d α) (i : Nat) (r : row_type)
    (data : List α) : vector2d α :=
  { m_rows := v.m_rows.set i r, m_data := data }

/-- Well-formedness of one descriptor with respect to a buffer length: the
length fits in the capacity and the reserved span lies inside the buffer. -/
def rowWF (r : row_type) (len : Nat) : Prop :=
  r.m_size ≤ r.m_capacity ∧ r.m_begin_index + r.m_capacity ≤ len

/-- Well-formedness of the whole container: every descriptor is well-formed
for the shared buffer. -/
def vector2d.WF {α : Type} (v : vector2d α) : Prop :=
  ∀ r ∈ v.m_rows, rowWF r v.m_data.length

/-- The invariant claimed by the specification: for any valid row descriptor,
`start_offset + capacity ≤ buffer.size()`. -/
def vector2d.Inv {α : Type} (v : vector2d α) : Prop :=
  ∀ r ∈ v.m_rows, r.m_begin_index + r.m_capacity ≤ v.m_data.length

instance (r : row_type) (n : Nat) : Decidable (rowWF r n) :=
  inferInstanceAs (Decidable (r.m_size ≤ r.m_capacity ∧ r.m_begin_index + r.m_capacity ≤ n))

instance {α : Type} [DecidableEq α] (v : vector2d α) : Decidable v.WF :=
  inferInstanceAs (Decidable (∀ r ∈ v.m_rows, rowWF r v.m_data.length))

instance {α : Type} [DecidableEq α] (v : vector2d α) : Decidable v.Inv :=
  inferInstanceAs
    (Decidable (∀ r ∈ v.m_rows, r.m_begin_index + r.m_capacity ≤ v.m_data.length))

/-- A newly constructed structure: default constructor, `vector2d(nrow)`, or
`vector2d(nrow, ncol)`. -/
def vector2d.Init {α : Type} [Inhabited α] (v : vector2d α) : Prop :=
  v = vector2d.emptyV2d α ∨ (∃ n, vector2d.mk_nrow α n = .ok v) ∨
    (∃ n m, vector2d.mk_nrow_ncol α n m = .ok v)

/-- One public mutating operation of the container, applied with valid
arguments (row indices in range, `first ≤ last` for ranges, non-empty rows
for `pop_back`; the multi-row overloads of `insert` and `push_back` are the
single-row forms iterated).  Row-level operations act on row `i` through the
shared buffer. -/
inductive Step {α : Type} [Inhabited α] : vector2d α → vector2d α → Prop where
  | row_reserve (v : vector2d α) (i n : Nat) (r : row_type)
      (h : v.m_rows.get? i = some r) :
      Step v (v.setRow i (r.reserve v.m_data n).1 (r.reserve v.m_data n).2)
  | row_push_back (v : vector2d α) (i : Nat) (value : α) (r : row_type)
      (h : v.m_rows.get? i = some r) :
      Step v (v.setRow i (r.push_back v.m_data value).1 (r.push_back v.m_data value).2)
  | row_pop_back (v : vector2d α) (i : Nat) (r : row_type)
      (h : v.m_rows.get? i = some r) (hne : r.m_size ≠ 0) :
      Step v (v.setRow i r.pop_back v.m_data)
  | row_insert (v : vector2d α) (i diff : Nat) (vals : List α) (r r' : row_type)
      (d' : List α) (ret : Nat) (h : v.m_rows.get? i = some r)
      (hok : r.insert v.m_data diff vals = .ok (r', d', ret)) :
      Step v (v.setRow i r' d')
  | row_erase (v : vector2d α) (i fdiff ldiff : Nat) (r r' : row_type)
      (d' : List α) (ret : Nat) (h : v.m_rows.get? i = some r) (hfl : fdiff ≤ ldiff)
      (hok : r.erase v.m_data fdiff ldiff = .ok (r', d', ret)) :
      Step v (v.setRow i r' d')
  | row_resize (v : vector2d α) (i n : Nat) (value : α) (r : row_type)
      (h : v.m_rows.get? i = some r) :
      Step v (v.setRow i (r.resize v.m_data n value).1 (r.resize v.m_data n value).2)
  | row_clear (v : vector2d α) (i : Nat) (r : row_type)
      (h : v.m_rows.get? i = some r) :
      Step v (v.setRow i r.clear v.m_data)
  | row_shrink (v : vector2d α) (i : Nat) (r : row_type)
      (h : v.m_rows.get? i = some r) :
      Step v (v.setRow i r.shrink_to_fit v.m_data)
  | push_back (v : vector2d α) (arr : List α) : Step v (v.push_back arr)
  | insert_row (v : vector2d α) (pos : Nat) (rcontent : List α)
      (hpos : pos ≤ v.m_rows.length) : Step v (v.insertRow pos rcontent)
  | erase_rows (v v' : vector2d α) (fdiff ldiff ret : Nat) (hfl : fdiff ≤ ldiff)
      (hok : v.eraseRows fdiff ldiff = .ok (v', ret)) : Step v v'
  | pop_back_row (v : vector2d α) (hne : v.m_rows ≠ []) : Step v v.pop_backRow
  | clear (v : vector2d α) : Step v v.clearAll
  | resize_empty (v : vector2d α) (n : Nat) : Step v (v.resizeEmptyRows n)
  | resize_rows (v : vector2d α) (n : Nat) (rcontent : List α) (rcap : Nat)
      (hc : rcontent.length ≤ rcap) : Step v (v.resizeRows n rcontent rcap)
  | compact (v : vector2d α) : Step v v.compact

/-- The operations of `Step` without `compact` and with the structure-level
`resize` restricted to template rows that carry no spare capacity
(`capacity = length`). -/
inductive StepNC {α : Type} [Inhabited α] : vector2d α → vector2d α → Prop where
  | row_reserve (v : vector2d α) (i n : Nat) (r : row_type)
      (h : v.m_rows.get? i = some r) :
      StepNC v (v.setRow i (r.reserve v.m_data n).1 (r.reserve v.m_data n).2)
  | row_push_back (v : vector2d α) (i : Nat) (value : α) (r : row_type)
      (h : v.m_rows.get? i = some r) :
      StepNC v (v.setRow i (r.push_back v.m_data value).1 (r.push_back v.m_data value).2)
  | row_pop_back (v : vector2d α) (i : Nat) (r : row_type)
      (h : v.m_rows.get? i = some r) (hne : r.m_size ≠ 0) :
      StepNC v (v.setRow i r.pop_back v.m_data)
  | row_insert (v : vector2d α) (i diff : Nat) (vals : List α) (r r' : row_type)
      (d' : List α) (ret : Nat) (h : v.m_rows.get? i = some r)
      (hok : r.insert v.m_data diff vals = .ok (r', d', ret)) :
      StepNC v (v.setRow i r' d')
  | row_erase (v : vector2d α) (i fdiff ldiff : Nat) (r r' : row_type)
      (d' : List α) (ret : Nat) (h : v.m_rows.get? i = some r) (hfl : fdiff ≤ ldiff)
      (hok : r.erase v.m_data fdiff ldiff = .ok (r', d', ret)) :
      StepNC v (v.setRow i r' d')
  | row_resize (v : vector2d α) (i n : Nat) (value : α) (r : row_type)
      (h : v.m_rows.get? i = some r) :
      StepNC v (v.setRow i (r.resize v.m_data n value).1 (r.resize v.m_data n value).2)
  | row_clear (v : vector2d α) (i : Nat) (r : row_type)
      (h : v.m_rows.get? i = some r) :
      StepNC v (v.setRow i r.clear v.m_data)
  | row_shrink (v : vector2d α) (i : Nat) (r : row_type)
      (h : v.m_rows.get? i = some r) :
      StepNC v (v.setRow i r.shrink_to_fit v.m_data)
  | push_back (v : vector2d α) (arr : List α) : StepNC v (v.push_back arr)
  | insert_row (v : vector2d α) (pos : Nat) (rcontent : List α)
      (hpos : pos ≤ v.m_rows.length) : StepNC v (v.insertRow pos rcontent)
  | erase_rows (v v' : vector2d α) (fdiff ldiff ret : Nat) (hfl : fdiff ≤ ldiff)
      (hok : v.eraseRows fdiff ldiff = .ok (v', ret)) : StepNC v v'
  | pop_back_row (v : vector2d α) (hne : v.m_rows ≠ []) : StepNC v v.pop_backRow
  | clear (v : vector2d α) : StepNC v v.clearAll
  | resize_empty (v : vector2d α) (n : Nat) : StepNC v (v.resizeEmptyRows n)
  | resize_rows (v : vector2d α) (n : Nat) (rcontent : List α) (rcap : Nat)
      (hc : rcontent.length = rcap) : StepNC v (v.resizeRows n rcontent rcap)

/-! ### Basic lemmas about the buffer primitives -/

theorem usub_of_le {a b : Nat} (h : b ≤ a) : usub a b = a - b := by
  simp [usub, h]

theorem usub_self_add {a b : Nat} : usub (a + b) a = b := by
  simp [usub]

theorem length_move_desc_go {α : Type} [Inhabited α] (src dst n : Nat) (data : List α) :
    (move_desc_go src dst n data).length = data.length := by
  induction n generalizing data with
  | zero => rfl
  | succ n ih => rw [move_desc_go, ih, List.length_set]

theorem length_move_asc_go {α : Type} [Inhabited α] (src dst i n : Nat) (data : List α) :
    (move_asc_go src dst i n data).length = data.length := by
  induction n generalizing data i with
  | zero => rfl
  | succ n ih => rw [move_asc_go, ih, List.length_set]

theorem length_write_range_go {α : Type} (base i : Nat) (vs data : List α) :
    (write_range_go base i vs data).length = data.length := by
  induction vs generalizing data i with
  | nil => rfl
  | cons v vs ih => rw [write_range_go, ih, List.length_set]

theorem length_fill_range_go {α : Type} (value : α) (i n : Nat) (data : List α) :
    (fill_range_go value i n data).length = data.length := by
  induction n generalizing data i with
  | zero => rfl
  | succ n ih => rw [fill_range_go, ih, List.length_set]

theorem length_append' {α : Type} (data : List α) (count : Nat) (value : α) :
    (append data count value).length = data.length + count := by
  simp [append]

theorem move_desc_go_getElem? {α : Type} [Inhabited α] {src dst n : Nat} {data : List α}
    (hsd : src ≤ dst) (hn : dst + n ≤ data.length) (j : Nat) :
    (move_desc_go src dst n data)[j]? =
      if dst ≤ j ∧ j < dst + n then data[src + (j - dst)]? else data[j]? := by
  induction n generalizing data with
  | zero => rw [move_desc_go, if_neg (by omega)]
  | succ n ih =>
    rw [move_desc_go, ih (by rw [List.length_set]; omega)]
    rcases Nat.lt_trichotomy j (dst + n) with hj | hj | hj
    · by_cases hdj : dst ≤ j
      · rw [if_pos ⟨hdj, hj⟩, if_pos ⟨hdj, by omega⟩, List.getElem?_set,
          if_neg (by omega)]
      · rw [if_neg (by omega), if_neg (by omega), List.getElem?_set, if_neg (by omega)]
    · subst hj
      rw [if_neg (by omega), if_pos ⟨by omega, by omega⟩, List.getElem?_set,
        if_pos rfl, if_pos (by omega), List.getD_eq_getElem?_getD,
        List.getElem?_eq_getElem (by omega), Option.getD_some,
        List.getElem?_eq_getElem (l := data) (by omega)]
      congr 2
      omega
    · rw [if_neg (by omega), if_neg (by omega), List.getElem?_set, if_neg (by omega)]

theorem move_asc_go_getElem? {α : Type} [Inhabited α] {src dst n : Nat} {data : List α}
    (hsd : dst ≤ src) {i : Nat} (hn : src + i + n ≤ data.length) (j : Nat) :
    (move_asc_go src dst i n data)[j]? =
      if dst + i ≤ j ∧ j < dst + i + n then data[src + (j - dst)]? else data[j]? := by
  induction n generalizing data i with
  | zero => rw [move_asc_go, if_neg (by omega)]
  | succ n ih =>
    rw [move_asc_go, ih (i := i + 1) (by rw [List.length_set]; omega)]
    rcases Nat.lt_trichotomy j (dst + i) with hj | hj | hj
    · rw [if_neg (by omega), if_neg (by omega), List.getElem?_set, if_neg (by omega)]
    · subst hj
      rw [if_neg (by omega), if_pos ⟨le_refl _, by omega⟩, List.getElem?_set,
        if_pos rfl, if_pos (by omega), List.getD_eq_getElem?_getD,
        List.getElem?_eq_getElem (by omega), Option.getD_some,
        List.getElem?_eq_getElem (l := data) (by omega)]
      congr 2
      omega
    · by_cases hj2 : j < dst + i + 1 + n
      · rw [if_pos ⟨by omega, hj2⟩, if_pos ⟨by omega, by omega⟩, List.getElem?_set,
          if_neg (by omega)]
      · rw [if_neg (by omega), if_neg (by omega), List.getElem?_set, if_neg (by omega)]

theorem write_range_go_getElem? {α : Type} {base : Nat} {vs data : List α} {i : Nat}
    (hb : base + i + vs.length ≤ data.length) (j : Nat) :
    (write_range_go base i vs data)[j]? =
      if base + i ≤ j ∧ j < base + i + vs.length then vs[j - (base + i)]? else data[j]? := by
  induction vs generalizing data i with
  | nil => rw [write_range_go, if_neg (by simp)]
  | cons v vs ih =>
    simp only [List.length_cons] at hb
    rw [write_range_go,
      ih (i := i + 1) (by rw [List.length_set]; omega)]
    simp only [List.length_cons]
    rcases Nat.lt_trichotomy j (base + i) with hj | hj | hj
    · rw [if_neg (by omega), if_neg (by omega), List.getElem?_set, if_neg (by omega)]
    · subst hj
      rw [if_neg (by omega), if_pos ⟨le_refl _, by omega⟩, List.getElem?_set,
        if_pos rfl, if_pos (by omega), Nat.sub_self, List.getElem?_cons_zero]
    · by_cases hj2 : j < base + i + 1 + vs.length
      · rw [if_pos ⟨by omega, hj2⟩, if_pos ⟨by omega, by omega⟩]
        have hjj : j - (base + i) = (j - (base + (i + 1))) + 1 := by omega
        rw [hjj, List.getElem?_cons_succ]
      · rw [if_neg (by omega), if_neg (by omega), List.getElem?_set, if_neg (by omega)]

theorem fill_range_go_getElem? {α : Type} {value : α} {i n : Nat} {data : List α}
    (hb : i + n ≤ data.length) (j : Nat) :
    (fill_range_go value i n data)[j]? =
      if i ≤ j ∧ j < i + n then some value else data[j]? := by
  induction n generalizing data i with
  | zero => rw [fill_range_go, if_neg (by omega)]
  | succ n ih =>
    rw [fill_range_go, ih (i := i + 1) (by rw [List.length_set]; omega)]
    rcases Nat.lt_trichotomy j i with hj | hj | hj
    · rw [if_neg (by omega), if_neg (by omega), List.getElem?_set, if_neg (by omega)]
    · subst hj
      rw [if_neg (by omega), if_pos ⟨le_refl _, by omega⟩, List.getElem?_set,
        if_pos rfl, if_pos (by omega)]
    · by_cases hj2 : j < i + 1 + n
      · rw [if_pos ⟨by omega, hj2⟩, if_pos ⟨by omega, by omega⟩]
      · rw [if_neg (by omega), if_neg (by omega), List.getElem?_set, if_neg (by omega)]

theorem move_desc_natCast {α : Type} [Inhabited α] (data : List α) (a c : Nat) (e : Int) :
    move_desc data (a : Int) e (c : Int) = move_desc_go a c (e + 1 - a).toNat data := by
  simp [move_desc]

theorem move_asc_natCast {α : Type} [Inhabited α] (data : List α) (a c : Nat) (e : Int) :
    move_asc data (a : Int) e (c : Int) = move_asc_go a c 0 (e - a).toNat data := by
  simp [move_asc]

theorem row_content_getElem? {α : Type} (data : List α) (r : row_type) (i : Nat) :
    (row_content data r)[i]? =
      if i < r.m_size then data[r.m_begin_index + i]? else none := by
  rw [row_content, List.getElem?_take, List.getElem?_drop]

theorem row_content_length {α : Type} {data : List α} {r : row_type}
    (h : r.m_begin_index + r.m_size ≤ data.length) :
    (row_content data r).length = r.m_size := by
  simp [row_content]
  omega


theorem length_move_desc {α : Type} [Inhabited α] (data : List α) (ia e ic : Int) :
    (move_desc data ia e ic).length = data.length := by
  rw [move_desc, length_move_desc_go]

theorem length_move_asc {α : Type} [Inhabited α] (data : List α) (ia e ic : Int) :
    (move_asc data ia e ic).length = data.length := by
  rw [move_asc, length_move_asc_go]

theorem length_write_range {α : Type} (data : List α) (base : Nat) (vs : List α) :
    (write_range data base vs).length = data.length := by
  rw [write_range, length_write_range_go]

theorem length_fill_range {α : Type} (data : List α) (base count : Nat) (value : α) :
    (fill_range data base count value).length = data.length := by
  rw [fill_range, length_fill_range_go]

theorem move_desc_getElem? {α : Type} [Inhabited α] {data : List α} {ia ic e : Int}
    (a c n : Nat) (ha : ia = (a : Int)) (hc : ic = (c : Int))
    (he : (e + 1 - ia).toNat = n) (hsd : a ≤ c) (hn : c + n ≤ data.length) (j : Nat) :
    (move_desc data ia e ic)[j]? =
      if c ≤ j ∧ j < c + n then data[a + (j - c)]? else data[j]? := by
  subst ha hc
  rw [move_desc_natCast, he]
  exact move_desc_go_getElem? hsd hn j

theorem move_asc_getElem? {α : Type} [Inhabited α] {data : List α} {ia ic e : Int}
    (a c n : Nat) (ha : ia = (a : Int)) (hc : ic = (c : Int))
    (he : (e - ia).toNat = n) (hsd : c ≤ a) (hn : a + n ≤ data.length) (j : Nat) :
    (move_asc data ia e ic)[j]? =
      if c ≤ j ∧ j < c + n then data[a + (j - c)]? else data[j]? := by
  subst ha hc
  rw [move_asc_natCast, he]
  have := @move_asc_go_getElem? α _ a c n data hsd 0 (by omega) j
  simpa using this

theorem write_range_getElem? {α : Type} {data : List α} {base : Nat} {vs : List α}
    (hb : base + vs.length ≤ data.length) (j : Nat) :
    (write_range data base vs)[j]? =
      if base ≤ j ∧ j < base + vs.length then vs[j - base]? else data[j]? := by
  rw [write_range]
  have := @write_range_go_getElem? α base vs data 0 (by omega) j
  simpa using this

theorem fill_range_getElem? {α : Type} {data : List α} {base count : Nat} {value : α}
    (hb : base + count ≤ data.length) (j : Nat) :
    (fill_range data base count value)[j]? =
      if base ≤ j ∧ j < base + count then some value else data[j]? := by
  rw [fill_range]
  exact fill_range_go_getElem? hb j

theorem append_getElem? {α : Type} (data : List α) (count : Nat) (value : α) (j : Nat) :
    (append data count value)[j]? =
      if j < data.length then data[j]?
      else if j < data.length + count then some value else none := by
  rw [append, List.getElem?_append]
  split_ifs with h h2
  · rfl
  · rw [List.getElem?_replicate, if_pos (by omega)]
  · rw [List.getElem?_replicate, if_neg (by omega)]

set_option maxHeartbeats 3200000 in
theorem row_type.insert_spec {α : Type} [Inhabited α] (r : row_type) (data : List α)
    (diff : Nat) (vals : List α)
    (h1 : r.m_size ≤ r.m_capacity) (h2 : r.m_begin_index + r.m_capacity ≤ data.length)
    (h3 : diff ≤ r.m_size) :
    ∃ r' data', r.insert data diff vals = .ok (r', data', diff) ∧
      r'.m_size = r.m_size + vals.length ∧
      r'.m_size ≤ r'.m_capacity ∧
      r'.m_begin_index + r'.m_capacity ≤ data'.length ∧
      data.length ≤ data'.length ∧
      row_content data' r' =
        (row_content data r).take diff ++ vals ++ (row_content data r).drop diff ∧
      (vals.length = 0 → r' = r ∧ data' = data) := by
  have hblen : r.m_begin_index + r.m_size ≤ data.length := by omega
  have hclen : (row_content data r).length = r.m_size := row_content_length hblen
  simp only [row_type.insert]
  rw [if_neg (by omega : ¬ diff > r.m_size), if_neg (Nat.not_lt_zero _)]
  by_cases hk : vals.length = 0
  · rw [if_pos hk]
    refine ⟨r, data, rfl, by omega, h1, h2, le_refl _, ?_, fun _ => ⟨rfl, rfl⟩⟩
    have hnil : vals = [] := List.length_eq_zero.mp hk
    subst hnil
    rw [List.append_nil, List.take_append_drop]
  · rw [if_neg hk]
    by_cases hcap : r.m_size + vals.length ≤ r.m_capacity
    · rw [if_pos hcap]
      refine ⟨_, _, rfl, by simp [row_type.update], ?_, ?_, ?_, ?_, fun h0 => absurd h0 hk⟩
      · simp only [row_type.update]
        exact Nat.le_max_left _ _
      · simp only [row_type.update]
        rw [length_write_range, length_move_desc]
        omega
      · rw [length_write_range, length_move_desc]
      · apply List.ext_getElem?
        intro j
        simp only [row_type.update, row_content_getElem?]
        rw [write_range_getElem? (by rw [length_move_desc]; omega) (r.m_begin_index + j),
          move_desc_getElem? (r.m_begin_index + diff)
            (r.m_begin_index + diff + vals.length) (r.m_size - diff)
            (by push_cast; ring) (by push_cast; ring)
            (by simp only [row_type.end_index]; omega)
            (by omega) (by omega) (r.m_begin_index + j)]
        simp only [List.getElem?_append, List.getElem?_take, List.getElem?_drop,
          row_content_getElem?, List.length_take, List.length_append, hclen]
        split_ifs <;> first | rfl | omega | (congr 1; omega) | (exfalso; omega)
    · rw [if_neg hcap]
      by_cases htail : r.m_begin_index + r.m_size ≠ data.length
      · rw [if_pos htail]
        refine ⟨_, _, rfl, by simp [row_type.update], ?_, ?_, ?_, ?_, fun h0 => absurd h0 hk⟩
        · simp only [row_type.update]
          exact Nat.le_max_left _ _
        · simp only [row_type.update]
          simp only [length_move_desc, length_write_range, length_append']
          omega
        · simp only [length_move_desc, length_write_range, length_append']
          omega
        · have hpt1 : ∀ x, (append data (r.m_size + vals.length) (default : α))[x]? =
              if x < data.length then data[x]?
              else if x < data.length + (r.m_size + vals.length) then some default
              else none :=
            append_getElem? data (r.m_size + vals.length) default
          have hlen1 : (append data (r.m_size + vals.length) (default : α)).length
              = data.length + (r.m_size + vals.length) := length_append' _ _ _
          set D1 := append data (r.m_size + vals.length) (default : α) with hD1
          have hpt2 : ∀ x, (move_desc D1 (r.m_begin_index : Int)
              ((r.m_begin_index : Int) + diff - 1)
              ((D1.length - r.m_size - vals.length : Nat) : Int))[x]? =
              if D1.length - r.m_size - vals.length ≤ x ∧
                  x < D1.length - r.m_size - vals.length + diff then
                D1[r.m_begin_index + (x - (D1.length - r.m_size - vals.length))]?
              else D1[x]? :=
            move_desc_getElem? r.m_begin_index (D1.length - r.m_size - vals.length) diff
              rfl rfl (by omega) (by omega) (by omega)
          have hlen2 : (move_desc D1 (r.m_begin_index : Int)
              ((r.m_begin_index : Int) + diff - 1)
              ((D1.length - r.m_size - vals.length : Nat) : Int)).length = D1.length :=
            length_move_desc _ _ _ _
          set D2 := move_desc D1 (r.m_begin_index : Int)
            ((r.m_begin_index : Int) + diff - 1)
            ((D1.length - r.m_size - vals.length : Nat) : Int) with hD2
          have hpt3 : ∀ x, (write_range D2 (D2.length - r.m_size - vals.length + diff)
              vals)[x]? =
              if D2.length - r.m_size - vals.length + diff ≤ x ∧
                  x < D2.length - r.m_size - vals.length + diff + vals.length then
                vals[x - (D2.length - r.m_size - vals.length + diff)]?
              else D2[x]? :=
            write_range_getElem? (by omega)
          have hlen3 : (write_range D2 (D2.length - r.m_size - vals.length + diff)
              vals).length = D2.length := length_write_range _ _ _
          set D3 := write_range D2 (D2.length - r.m_size - vals.length + diff) vals
            with hD3
          have hpt4 : ∀ x, (move_desc D3 ((r.m_begin_index : Int) + diff)
              ((r.end_index : Int) - 1)
              ((D3.length - r.m_size + diff : Nat) : Int))[x]? =
              if D3.length - r.m_size + diff ≤ x ∧
                  x < D3.length - r.m_size + diff + (r.m_size - diff) then
                D3[r.m_begin_index + diff + (x - (D3.length - r.m_size + diff))]?
              else D3[x]? :=
            move_desc_getElem? (r.m_begin_index + diff) (D3.length - r.m_size + diff)
              (r.m_size - diff) (by push_cast; ring) rfl
              (by simp only [row_type.end_index]; omega) (by omega) (by omega)
          have hlen4 : (move_desc D3 ((r.m_begin_index : Int) + diff)
              ((r.end_index : Int) - 1)
              ((D3.length - r.m_size + diff : Nat) : Int)).length = D3.length :=
            length_move_desc _ _ _ _
          set D4 := move_desc D3 ((r.m_begin_index : Int) + diff)
            ((r.end_index : Int) - 1) ((D3.length - r.m_size + diff : Nat) : Int) with hD4
          apply List.ext_getElem?
          intro j
          simp only [row_type.update, row_content_getElem?, hpt4, hpt3, hpt2, hpt1,
            List.getElem?_append, List.getElem?_take, List.getElem?_drop,
            List.length_take, List.length_append, hclen]
          split_ifs <;> first | rfl | omega | (congr 1; omega) | (exfalso; omega)
      · rw [if_neg htail]
        push_neg at htail
        refine ⟨_, _, rfl, by simp [row_type.update], ?_, ?_, ?_, ?_, fun h0 => absurd h0 hk⟩
        · simp only [row_type.update]
          exact Nat.le_max_left _ _
        · simp only [row_type.update]
          rw [length_write_range, length_move_desc, length_append']
          omega
        · rw [length_write_range, length_move_desc, length_append']
          omega
        · have hpt1 : ∀ x, (append data vals.length (default : α))[x]? =
              if x < data.length then data[x]?
              else if x < data.length + vals.length then some default else none :=
            append_getElem? data vals.length default
          have hlen1 : (append data vals.length (default : α)).length
              = data.length + vals.length := length_append' _ _ _
          set D1 := append data vals.length (default : α) with hD1
          have hpt2 : ∀ x, (move_desc D1 ((r.m_begin_index : Int) + diff)
              ((r.end_index : Int) - 1) ((r.m_begin_index : Int) + diff + vals.length))[x]? =
              if r.m_begin_index + diff + vals.length ≤ x ∧
                  x < r.m_begin_index + diff + vals.length + (r.m_size - diff) then
                D1[r.m_begin_index + diff + (x - (r.m_begin_index + diff + vals.length))]?
              else D1[x]? :=
            move_desc_getElem? (r.m_begin_index + diff)
              (r.m_begin_index + diff + vals.length) (r.m_size - diff)
              (by push_cast; ring) (by push_cast; ring)
              (by simp only [row_type.end_index]; omega) (by omega) (by omega)
          have hlen2 : (move_desc D1 ((r.m_begin_index : Int) + diff)
              ((r.end_index : Int) - 1)
              ((r.m_begin_index : Int) + diff + vals.length)).length = D1.length :=
            length_move_desc _ _ _ _
          set D2 := move_desc D1 ((r.m_begin_index : Int) + diff)
            ((r.end_index : Int) - 1) ((r.m_begin_index : Int) + diff + vals.length) with hD2
          have hpt3 : ∀ x, (write_range D2 (r.m_begin_index + diff) vals)[x]? =
              if r.m_begin_index + diff ≤ x ∧
                  x < r.m_begin_index + diff + vals.length then
                vals[x - (r.m_begin_index + diff)]?
              else D2[x]? :=
            write_range_getElem? (by omega)
          apply List.ext_getElem?
          intro j
          simp only [row_type.update, row_content_getElem?, hpt3, hpt2, hpt1,
            List.getElem?_append, List.getElem?_take, List.getElem?_drop,
            List.length_take, List.length_append, hclen]
          split_ifs <;> first | rfl | omega | (congr 1; omega) | (exfalso; omega)

theorem getElem?_one {α : Type} (a : α) (n : Nat) :
    [a][n]? = if n = 0 then some a else none := by
  cases n <;> simp

set_option maxHeartbeats 1600000 in
theorem row_type.erase_spec {α : Type} [Inhabited α] (r : row_type) (data : List α)
    (fdiff ldiff : Nat)
    (h1 : r.m_size ≤ r.m_capacity) (h2 : r.m_begin_index + r.m_capacity ≤ data.length)
    (hfl : fdiff ≤ ldiff) (hl : ldiff ≤ r.m_size) :
    ∃ r' data', r.erase data fdiff ldiff = .ok (r', data', fdiff) ∧
      r'.m_begin_index = r.m_begin_index ∧
      r'.m_size = r.m_size - (ldiff - fdiff) ∧
      r'.m_capacity = r.m_capacity ∧
      data'.length = data.length ∧
      row_content data' r' =
        (row_content data r).take fdiff ++ (row_content data r).drop ldiff ∧
      (fdiff = ldiff → r' = r ∧ data' = data) := by
  have hblen : r.m_begin_index + r.m_size ≤ data.length := by omega
  have hclen : (row_content data r).length = r.m_size := row_content_length hblen
  have hrange : usub ldiff fdiff = ldiff - fdiff := usub_of_le hfl
  simp only [row_type.erase, hrange]
  rw [if_neg (by omega : ¬ fdiff > r.m_size), if_neg (by omega : ¬ ldiff > r.m_size),
    if_neg (Nat.not_lt_zero _)]
  by_cases h0 : ldiff - fdiff = 0
  · rw [if_pos h0]
    have heq : ldiff = fdiff := by omega
    subst heq
    refine ⟨r, data, rfl, rfl, by omega, rfl, rfl, ?_, fun _ => ⟨rfl, rfl⟩⟩
    rw [List.take_append_drop]
  · rw [if_neg h0]
    have hu2 : usub (r.m_begin_index + ldiff) (ldiff - fdiff)
        = r.m_begin_index + fdiff := by
      rw [usub_of_le (by omega)]
      omega
    have hu3 : usub r.m_size (ldiff - fdiff) = r.m_size - (ldiff - fdiff) :=
      usub_of_le (by omega)
    simp only [hu2, hu3]
    have hpt1 : ∀ x, (move_asc data ((r.m_begin_index : Int) + ldiff)
        (r.end_index : Int) ((r.m_begin_index + fdiff : Nat) : Int))[x]? =
        if r.m_begin_index + fdiff ≤ x ∧
            x < r.m_begin_index + fdiff + (r.m_size - ldiff) then
          data[r.m_begin_index + ldiff + (x - (r.m_begin_index + fdiff))]?
        else data[x]? :=
      move_asc_getElem? (r.m_begin_index + ldiff) (r.m_begin_index + fdiff)
        (r.m_size - ldiff) (by push_cast; ring) rfl
        (by simp only [row_type.end_index]; omega) (by omega) (by omega)
    refine ⟨_, _, rfl, rfl, rfl, ?_, length_move_asc _ _ _ _, ?_,
      fun hfl2 => absurd hfl2 (by omega)⟩
    · simp only [row_type.update]
      exact max_eq_right (by omega)
    · apply List.ext_getElem?
      intro j
      simp only [row_type.update, row_content_getElem?, hpt1,
        List.getElem?_append, List.getElem?_take, List.getElem?_drop,
        List.length_take, List.length_append, hclen]
      split_ifs <;> first | rfl | omega | (congr 1; omega)

set_option maxHeartbeats 1600000 in
theorem row_type.push_back_spec {α : Type} [Inhabited α] (r : row_type) (data : List α)
    (value : α)
    (h1 : r.m_size ≤ r.m_capacity) (h2 : r.m_begin_index + r.m_capacity ≤ data.length) :
    ∃ r' data', r.push_back data value = (r', data') ∧
      r'.m_size = r.m_size + 1 ∧
      r'.m_size ≤ r'.m_capacity ∧
      r'.m_begin_index + r'.m_capacity ≤ data'.length ∧
      data.length ≤ data'.length ∧
      row_content data' r' = row_content data r ++ [value] ∧
      (r.m_size = r.m_capacity ∧ r.m_begin_index + r.m_size ≠ data.length →
        data'.length = data.length + r.m_size + 1 ∧
        r'.m_begin_index = data'.length - (r.m_size + 1)) := by
  have hblen : r.m_begin_index + r.m_size ≤ data.length := by omega
  have hclen : (row_content data r).length = r.m_size := row_content_length hblen
  simp only [row_type.push_back]
  by_cases hfast : r.m_size < r.m_capacity
  · rw [if_pos hfast]
    refine ⟨_, _, rfl, by simp [row_type.update], ?_, ?_, ?_, ?_,
      fun hh => absurd hh.1 (by omega)⟩
    · simp only [row_type.update]
      exact Nat.le_max_left _ _
    · simp only [row_type.update, List.length_set]
      omega
    · simp only [List.length_set]
      omega
    · apply List.ext_getElem?
      intro j
      simp only [row_type.update, row_content_getElem?, row_type.end_index,
        List.getElem?_set, List.getElem?_append, getElem?_one, List.length_append,
        hclen]
      split_ifs <;> first | rfl | omega | (congr 1; omega)
  · rw [if_neg hfast]
    by_cases hcond : r.m_size ≠ 0 ∧ r.end_index ≠ data.length
    · rw [if_pos hcond]
      have hpt1 : ∀ x, (append data (r.m_size + 1) (default : α))[x]? =
          if x < data.length then data[x]?
          else if x < data.length + (r.m_size + 1) then some default else none :=
        append_getElem? data (r.m_size + 1) default
      have hlen1 : (append data (r.m_size + 1) (default : α)).length
          = data.length + (r.m_size + 1) := length_append' _ _ _
      set D1 := append data (r.m_size + 1) (default : α) with hD1
      have hpt2 : ∀ x, (move_desc D1 (r.m_begin_index : Int)
          ((r.end_index : Int) - 1) ((D1.length - r.m_size - 1 : Nat) : Int))[x]? =
          if D1.length - r.m_size - 1 ≤ x ∧
              x < D1.length - r.m_size - 1 + r.m_size then
            D1[r.m_begin_index + (x - (D1.length - r.m_size - 1))]?
          else D1[x]? :=
        move_desc_getElem? r.m_begin_index (D1.length - r.m_size - 1) r.m_size
          rfl rfl (by simp only [row_type.end_index]; omega) (by omega) (by omega)
      have hlen2 : (move_desc D1 (r.m_begin_index : Int)
          ((r.end_index : Int) - 1)
          ((D1.length - r.m_size - 1 : Nat) : Int)).length = D1.length :=
        length_move_desc _ _ _ _
      set D2 := move_desc D1 (r.m_begin_index : Int) ((r.end_index : Int) - 1)
        ((D1.length - r.m_size - 1 : Nat) : Int) with hD2
      refine ⟨_, _, rfl, by simp [row_type.update], ?_, ?_, ?_, ?_, fun _ => ?_⟩
      · simp only [row_type.update]
        exact Nat.le_max_left _ _
      · simp only [row_type.update, List.length_set]
        omega
      · simp only [List.length_set, hlen2, hlen1]
        omega
      · apply List.ext_getElem?
        intro j
        simp only [row_type.update, row_content_getElem?, List.getElem?_set,
          List.length_set, hpt2, hpt1, List.getElem?_append, getElem?_one,
          List.length_append, hclen]
        split_ifs <;> first | rfl | omega | (congr 1; omega)
      · constructor
        · simp only [List.length_set]
          omega
        · simp only [row_type.update, List.length_set]
          omega
    · rw [if_neg hcond]
      push_neg at hcond
      refine ⟨_, _, rfl, by simp [row_type.update], ?_, ?_, ?_, ?_, fun hh => ?_⟩
      · simp only [row_type.update]
        exact Nat.le_max_left _ _
      · simp only [row_type.update, List.length_append, List.length_cons,
          List.length_nil]
        omega
      · simp only [List.length_append, List.length_cons, List.length_nil]
        omega
      · apply List.ext_getElem?
        intro j
        rcases Nat.eq_zero_or_pos r.m_size with hs | hs
        · simp only [row_type.update, row_content_getElem?, List.getElem?_append,
            getElem?_one, List.length_append, List.length_cons, List.length_nil,
            hclen, hs]
          split_ifs <;> first | rfl | omega | (congr 1; omega)
        · have hcnd2 : r.m_begin_index + r.m_size = data.length := by
            have := hcond (by omega)
            simp only [row_type.end_index] at this
            omega
          simp only [row_type.update, row_content_getElem?, List.getElem?_append,
            getElem?_one, List.length_append, List.length_cons, List.length_nil,
            hclen]
          split_ifs <;> first | rfl | omega | (congr 1; omega)
      · have hs0 : r.m_size = 0 := by
          rcases Nat.eq_zero_or_pos r.m_size with hs | hs
          · exact hs
          · exact absurd (by simpa [row_type.end_index] using hcond (by omega)) hh.2
        constructor
        · simp only [List.length_append, List.length_cons, List.length_nil]
          omega
        · simp only [row_type.update, List.length_append, List.length_cons,
            List.length_nil]
          omega

set_option maxHeartbeats 1600000 in
theorem row_type.reserve_spec {α : Type} [Inhabited α] (r : row_type) (data : List α)
    (n : Nat)
    (h1 : r.m_size ≤ r.m_capacity) (h2 : r.m_begin_index + r.m_capacity ≤ data.length) :
    (n ≤ r.m_capacity → r.reserve data n = (r, data)) ∧
    (r.m_capacity < n → ∃ r' data', r.reserve data n = (r', data') ∧
      r'.m_capacity = n ∧ r'.m_size = r.m_size ∧
      r'.m_size ≤ r'.m_capacity ∧ r'.m_begin_index + r'.m_capacity ≤ data'.length ∧
      data.length ≤ data'.length ∧
      row_content data' r' = row_content data r) := by
  have hblen : r.m_begin_index + r.m_size ≤ data.length := by omega
  have hclen : (row_content data r).length = r.m_size := row_content_length hblen
  constructor
  · intro hn
    simp only [row_type.reserve]
    rw [if_pos hn]
  · intro hn
    simp only [row_type.reserve]
    rw [if_neg (by omega : ¬ n ≤ r.m_capacity)]
    by_cases htail : r.m_begin_index + r.m_size ≠ data.length
    · rw [if_pos htail]
      have hpt1 : ∀ x, (append data n (default : α))[x]? =
          if x < data.length then data[x]?
          else if x < data.length + n then some default else none :=
        append_getElem? data n default
      have hlen1 : (append data n (default : α)).length = data.length + n :=
        length_append' _ _ _
      set D1 := append data n (default : α) with hD1
      have hpt2 : ∀ x, (move_desc D1 (r.m_begin_index : Int)
          ((r.m_begin_index : Int) + r.m_capacity - 1)
          ((D1.length - n : Nat) : Int))[x]? =
          if D1.length - n ≤ x ∧ x < D1.length - n + r.m_capacity then
            D1[r.m_begin_index + (x - (D1.length - n))]?
          else D1[x]? :=
        move_desc_getElem? r.m_begin_index (D1.length - n) r.m_capacity
          rfl rfl (by omega) (by omega) (by omega)
      have hlen2 : (move_desc D1 (r.m_begin_index : Int)
          ((r.m_begin_index : Int) + r.m_capacity - 1)
          ((D1.length - n : Nat) : Int)).length = D1.length :=
        length_move_desc _ _ _ _
      set D2 := move_desc D1 (r.m_begin_index : Int)
        ((r.m_begin_index : Int) + r.m_capacity - 1)
        ((D1.length - n : Nat) : Int) with hD2
      refine ⟨_, _, rfl, rfl, by simp [row_type.update], ?_, ?_, ?_, ?_⟩
      · simp only [row_type.update]
        omega
      · simp only [row_type.update]
        omega
      · simp only [hlen2, hlen1]
        omega
      · apply List.ext_getElem?
        intro j
        simp only [row_type.update, row_content_getElem?, hpt2, hpt1]
        split_ifs <;> first | rfl | omega | (congr 1; omega)
    · rw [if_neg htail]
      push_neg at htail
      refine ⟨_, _, rfl, rfl, rfl, by simp; omega, ?_, ?_, ?_⟩
      · simp only [length_append']
        omega
      · simp only [length_append']
        omega
      · apply List.ext_getElem?
        intro j
        have hpt1 : ∀ x, (append data (n - r.m_size) (default : α))[x]? =
            if x < data.length then data[x]?
            else if x < data.length + (n - r.m_size) then some default else none :=
          append_getElem? data (n - r.m_size) default
        simp only [row_content_getElem?, hpt1]
        split_ifs <;> first | rfl | omega | (congr 1; omega)

theorem row_type.pop_back_spec (r : row_type) (h1 : r.m_size ≤ r.m_capacity) :
    (0 < r.m_size → r.pop_back =
      ⟨r.m_begin_index, r.m_size - 1, r.m_capacity⟩) ∧
    (r.m_size = 0 → r.pop_back.m_size = USZ - 1) := by
  constructor
  · intro hs
    rw [row_type.pop_back, usub_of_le hs, row_type.update,
      max_eq_right (by omega : r.m_size - 1 ≤ r.m_capacity)]
  · intro hs
    rw [row_type.pop_back, row_type.update]
    simp only [usub, hs]
    rw [if_neg (by omega)]
    omega

set_option maxHeartbeats 800000 in
theorem insert_erase_round_trip {α : Type} [Inhabited α] (r : row_type) (data : List α)
    (diff : Nat) (vals : List α)
    (h1 : r.m_size ≤ r.m_capacity) (h2 : r.m_begin_index + r.m_capacity ≤ data.length)
    (h3 : diff ≤ r.m_size) :
    ∃ r1 d1 r2 d2, r.insert data diff vals = .ok (r1, d1, diff) ∧
      r1.erase d1 diff (diff + vals.length) = .ok (r2, d2, diff) ∧
      row_content d2 r2 = row_content data r ∧ r2.m_size = r.m_size := by
  have hblen : r.m_begin_index + r.m_size ≤ data.length := by omega
  have hclen : (row_content data r).length = r.m_size := row_content_length hblen
  obtain ⟨r1, d1, hok, hsz, hwf1, hwf2, hge1, hcontent, -⟩ :=
    row_type.insert_spec r data diff vals h1 h2 h3
  obtain ⟨r2, d2, hok2, hb2, hs2, hc2, hlen2, hcontent2, -⟩ :=
    row_type.erase_spec r1 d1 diff (diff + vals.length) hwf1 hwf2
      (by omega) (by omega)
  refine ⟨r1, d1, r2, d2, hok, hok2, ?_, by omega⟩
  rw [hcontent2, hcontent]
  apply List.ext_getElem?
  intro j
  simp only [List.getElem?_append, List.getElem?_take, List.getElem?_drop,
    List.length_append, List.length_take, List.length_drop, hclen]
  split_ifs <;>
    first
      | rfl
      | omega
      | (congr 1; omega)
      | (rw [List.getElem?_eq_none (by omega)])

theorem foldl_size_eq (rows : List row_type) (acc : Nat) :
    rows.foldl (fun accumulator r => accumulator + r.m_size) acc
      = acc + (rows.map row_type.m_size).sum := by
  induction rows generalizing acc with
  | nil => simp
  | cons r rest ih => simp [ih, Nat.add_assoc]

theorem flatten_content_length {α : Type} (olddata : List α) (rows : List row_type)
    (hwf : ∀ r ∈ rows, r.m_begin_index + r.m_size ≤ olddata.length) :
    ((rows.map (row_content olddata)).flatten).length
      = (rows.map row_type.m_size).sum := by
  induction rows with
  | nil => simp
  | cons r rest ih =>
    simp only [List.map_cons, List.flatten_cons, List.length_append, List.map_cons,
      List.sum_cons]
    rw [row_content_length (hwf r (by simp)), ih (fun q hq => hwf q (by simp [hq]))]

set_option maxHeartbeats 1600000 in
theorem compact_go_spec {α : Type} (olddata : List α) (rows : List row_type)
    (acc : List α)
    (hwf : ∀ r ∈ rows, r.m_begin_index + r.m_size ≤ olddata.length) :
    (compact_go olddata rows acc).1
        = acc ++ (rows.map (row_content olddata)).flatten ∧
    List.Forall₂ (fun r r' =>
      r'.m_size = r.m_size ∧
      (r.m_size = 0 → r' = r) ∧
      (r.m_size ≠ 0 → r'.m_capacity = r.m_size ∧
        r'.m_begin_index + r'.m_size ≤ (compact_go olddata rows acc).1.length) ∧
      row_content (compact_go olddata rows acc).1 r' = row_content olddata r)
      rows (compact_go olddata rows acc).2 := by
  induction rows generalizing acc with
  | nil => exact ⟨by simp [compact_go], List.Forall₂.nil⟩
  | cons r rest ih =>
    by_cases hr : r.m_size = 0
    · have hgo : compact_go olddata (r :: rest) acc
          = ((compact_go olddata rest acc).1, r :: (compact_go olddata rest acc).2) := by
        rw [compact_go, if_pos hr]
      obtain ⟨ihdata, ihrel⟩ := ih acc (fun q hq => hwf q (by simp [hq]))
      rw [hgo]
      dsimp only
      constructor
      · rw [ihdata]
        have hnil : row_content olddata r = [] := by
          simp [row_content, hr]
        simp [hnil]
      · refine List.Forall₂.cons
          ⟨rfl, fun _ => rfl, fun hne => absurd hr hne, ?_⟩ ihrel
        simp [row_content, hr]
    · have hgo : compact_go olddata (r :: rest) acc
          = ((compact_go olddata rest (acc ++ row_content olddata r)).1,
             ((r.shrink_to_fit).update
               ((acc ++ row_content olddata r).length - r.m_size) r.m_size)
               :: (compact_go olddata rest (acc ++ row_content olddata r)).2) := by
        rw [compact_go, if_neg hr]
      have hclen : (row_content olddata r).length = r.m_size :=
        row_content_length (hwf r (by simp))
      obtain ⟨ihdata, ihrel⟩ :=
        ih (acc ++ row_content olddata r) (fun q hq => hwf q (by simp [hq]))
      rw [hgo]
      dsimp only
      constructor
      · rw [ihdata, List.map_cons, List.flatten_cons, List.append_assoc]
      · refine List.Forall₂.cons ⟨?_, fun h0 => absurd h0 hr, fun _ => ⟨?_, ?_⟩, ?_⟩ ihrel
        · simp [row_type.update]
        · simp [row_type.update, row_type.shrink_to_fit]
        · simp only [row_type.update, ihdata, List.length_append, hclen]
          omega
        · rw [ihdata]
          apply List.ext_getElem?
          intro j
          simp only [row_type.update, row_type.shrink_to_fit, row_content_getElem?,
            List.getElem?_append, List.length_append, hclen]
          split_ifs <;>
            first
              | rfl
              | omega
              | (congr 1; omega)
              | (rw [List.getElem?_eq_none (by omega)])
              | (rw [row_content_getElem?, if_neg (by omega)])
theorem row_type.resize_wf {α : Type} [Inhabited α] (r : row_type) (data : List α)
    (n : Nat) (value : α)
    (h1 : r.m_size ≤ r.m_capacity) (h2 : r.m_begin_index + r.m_capacity ≤ data.length) :
    data.length ≤ (r.resize data n value).2.length ∧
    (r.resize data n value).1.m_size ≤ (r.resize data n value).1.m_capacity ∧
    (r.resize data n value).1.m_begin_index + (r.resize data n value).1.m_capacity
      ≤ (r.resize data n value).2.length := by
  simp only [row_type.resize]
  split_ifs <;>
    (simp only [row_type.update, length_fill_range, length_move_desc, length_append']
     omega)

theorem setRow_wf {α : Type} (v : vector2d α) (i : Nat) (r' : row_type) (d' : List α)
    (hwf : v.WF) (hge : v.m_data.length ≤ d'.length)
    (hr' : rowWF r' d'.length) : (v.setRow i r' d').WF := by
  intro q hq
  simp only [vector2d.setRow] at hq ⊢
  rcases List.mem_or_eq_of_mem_set hq with hmem | heq
  · obtain ⟨ha, hb⟩ := hwf q hmem
    exact ⟨ha, by omega⟩
  · subst heq
    exact hr'

theorem vector2d.push_back_wf {α : Type} (v : vector2d α) (arr : List α)
    (hwf : v.WF) : (v.push_back arr).WF := by
  intro q hq
  simp only [vector2d.push_back, List.mem_append, List.mem_cons,
    List.not_mem_nil, or_false] at hq
  rcases hq with hmem | heq
  · obtain ⟨ha, hb⟩ := hwf q hmem
    refine ⟨ha, ?_⟩
    simp only [vector2d.push_back, List.length_append]
    omega
  · subst heq
    refine ⟨le_refl _, ?_⟩
    simp only [vector2d.push_back, List.length_append]
    omega

set_option maxHeartbeats 1600000 in
theorem stepNC_preserves_wf {α : Type} [Inhabited α] (s s' : vector2d α)
    (hwf : s.WF) (hstep : StepNC s s') : s'.WF := by
  cases hstep with
  | row_reserve i n r h =>
    obtain ⟨hrs, hrspan⟩ := hwf r (List.get?_mem h)
    by_cases hn : n ≤ r.m_capacity
    · rw [(row_type.reserve_spec r s.m_data n hrs hrspan).1 hn]
      exact setRow_wf s i r s.m_data hwf (le_refl _) ⟨hrs, hrspan⟩
    · obtain ⟨r', d', heq, hcap', hsz', hsc', hspan', hge', -⟩ :=
        (row_type.reserve_spec r s.m_data n hrs hrspan).2 (by omega)
      rw [heq]
      exact setRow_wf s i r' d' hwf hge' ⟨hsc', hspan'⟩
  | row_push_back i value r h =>
    obtain ⟨hrs, hrspan⟩ := hwf r (List.get?_mem h)
    obtain ⟨r', d', heq, hsz, hsc, hspan, hge, -, -⟩ :=
      row_type.push_back_spec r s.m_data value hrs hrspan
    rw [heq]
    exact setRow_wf s i r' d' hwf hge ⟨hsc, hspan⟩
  | row_pop_back i r h hne =>
    obtain ⟨hrs, hrspan⟩ := hwf r (List.get?_mem h)
    rw [(row_type.pop_back_spec r hrs).1 (by omega)]
    exact setRow_wf s i _ s.m_data hwf (le_refl _)
      ⟨show r.m_size - 1 ≤ r.m_capacity by omega,
       show r.m_begin_index + r.m_capacity ≤ s.m_data.length by omega⟩
  | row_insert i diff vals r r' d' ret h hok =>
    obtain ⟨hrs, hrspan⟩ := hwf r (List.get?_mem h)
    by_cases h3 : diff ≤ r.m_size
    · obtain ⟨r1, d1, heq, hsz, hsc, hspan, hge, -, -⟩ :=
        row_type.insert_spec r s.m_data diff vals hrs hrspan h3
      have hinj := heq.symm.trans hok
      simp only [Except.ok.injEq, Prod.mk.injEq] at hinj
      obtain ⟨hr1, hd1, -⟩ := hinj
      subst hr1 hd1
      exact setRow_wf s i r1 d1 hwf hge ⟨hsc, hspan⟩
    · rw [row_type.insert, if_pos (by omega : diff > r.m_size)] at hok
      exact absurd hok (by simp)
  | row_erase i fdiff ldiff r r' d' ret h hfl hok =>
    obtain ⟨hrs, hrspan⟩ := hwf r (List.get?_mem h)
    by_cases hl : ldiff ≤ r.m_size
    · obtain ⟨r1, d1, heq, hb1, hs1, hc1, hlen1, -, -⟩ :=
        row_type.erase_spec r s.m_data fdiff ldiff hrs hrspan hfl hl
      have hinj := heq.symm.trans hok
      simp only [Except.ok.injEq, Prod.mk.injEq] at hinj
      obtain ⟨hr1, hd1, -⟩ := hinj
      subst hr1 hd1
      exact setRow_wf s i r1 d1 hwf (by omega) ⟨by omega, by omega⟩
    · by_cases hf2 : fdiff > r.m_size
      · rw [row_type.erase, if_pos hf2] at hok
        exact absurd hok (by simp)
      · rw [row_type.erase, if_neg hf2,
          if_pos (by omega : ldiff > r.m_size)] at hok
        exact absurd hok (by simp)
  | row_resize i n value r h =>
    obtain ⟨hrs, hrspan⟩ := hwf r (List.get?_mem h)
    obtain ⟨hge, hsc, hspan⟩ := row_type.resize_wf r s.m_data n value hrs hrspan
    exact setRow_wf s i _ _ hwf hge ⟨hsc, hspan⟩
  | row_clear i r h =>
    obtain ⟨hrs, hrspan⟩ := hwf r (List.get?_mem h)
    refine setRow_wf s i _ s.m_data hwf (le_refl _) ⟨?_, ?_⟩ <;>
      simp only [row_type.clear] <;> omega
  | row_shrink i r h =>
    obtain ⟨hrs, hrspan⟩ := hwf r (List.get?_mem h)
    refine setRow_wf s i _ s.m_data hwf (le_refl _) ⟨?_, ?_⟩ <;>
      simp only [row_type.shrink_to_fit] <;> omega
  | push_back arr => exact vector2d.push_back_wf s arr hwf
  | insert_row pos rcontent hpos =>
    intro q hq
    simp only [vector2d.insertRow] at hq
    rcases (List.mem_insertIdx hpos).1 hq with heq | hmem
    · subst heq
      simp only [row_type.update, vector2d.insertRow, List.length_append]
      constructor
      · simp
      · simp
    · obtain ⟨ha, hb⟩ := hwf q hmem
      refine ⟨ha, ?_⟩
      simp only [vector2d.insertRow, List.length_append]
      omega
  | erase_rows v' fdiff ldiff ret hfl hok =>
    unfold vector2d.eraseRows at hok
    by_cases hf : fdiff > s.m_rows.length
    · rw [if_pos hf] at hok
      exact absurd hok (by simp)
    · rw [if_neg hf] at hok
      by_cases hl : ldiff > s.m_rows.length
      · rw [if_pos hl] at hok
        exact absurd hok (by simp)
      · rw [if_neg hl, if_neg (Nat.not_lt_zero _)] at hok
        by_cases h0 : usub ldiff fdiff = 0
        · rw [if_pos h0] at hok
          simp only [Except.ok.injEq, Prod.mk.injEq] at hok
          obtain ⟨hv, -⟩ := hok
          subst hv
          exact hwf
        · rw [if_neg h0] at hok
          simp only [Except.ok.injEq, Prod.mk.injEq] at hok
          obtain ⟨hv, -⟩ := hok
          subst hv
          intro q hq
          simp only [List.mem_append] at hq
          rcases hq with hmem | hmem
          · exact hwf q (List.mem_of_mem_take hmem)
          · exact hwf q (List.mem_of_mem_drop hmem)
  | pop_back_row hne =>
    intro q hq
    simp only [vector2d.pop_backRow] at hq ⊢
    have hq2 := List.mem_of_mem_dropLast hq
    rcases List.mem_or_eq_of_mem_set hq2 with hmem | heq
    · exact hwf q hmem
    · subst heq
      have hlast : s.m_rows.getD (s.m_rows.length - 1) ⟨0, 0, 0⟩ ∈ s.m_rows := by
        rw [List.getD_eq_getElem?_getD,
          List.getElem?_eq_getElem (by
            have := List.length_pos.mpr hne
            omega)]
        exact List.getElem_mem _
      obtain ⟨ha, hb⟩ := hwf _ hlast
      exact ⟨by simp [row_type.clear], by simp only [row_type.clear]; omega⟩
  | clear =>
    intro q hq
    simp only [vector2d.clearAll, List.not_mem_nil] at hq
  | resize_empty n =>
    rw [vector2d.resizeEmptyRows]
    split_ifs with hle
    · intro q hq
      exact hwf q (List.mem_of_mem_take hq)
    · intro q hq
      simp only [List.mem_append] at hq
      rcases hq with hmem | hmem
      · exact hwf q hmem
      · rw [List.eq_of_mem_replicate hmem]
        exact ⟨Nat.le_refl 0, Nat.zero_le _⟩
  | resize_rows n rcontent rcap hc =>
    rw [vector2d.resizeRows]
    split_ifs with hle
    · intro q hq
      exact hwf q (List.mem_of_mem_take hq)
    · intro q hq
      simp only [List.mem_append] at hq
      have hflat : ((List.replicate (n - s.m_rows.length) rcontent).flatten).length
          = (n - s.m_rows.length) * rcontent.length := by
        simp [List.length_flatten, List.map_replicate, List.sum_replicate]
      rcases hq with hmem | hmem
      · obtain ⟨ha, hb⟩ := hwf q hmem
        refine ⟨ha, ?_⟩
        simp only [List.length_append, hflat]
        omega
      · simp only [List.mem_map, List.mem_range] at hmem
        obtain ⟨k, hk, hq⟩ := hmem
        subst hq
        simp only [row_type.update, List.length_append, hflat]
        refine ⟨le_max_left _ _, ?_⟩
        rw [max_eq_right hc.le, ← hc]
        have hstep : (k + 1) * rcontent.length
            ≤ (n - s.m_rows.length) * rcontent.length :=
          Nat.mul_le_mul_right _ (by omega)
        have hmul : (k + 1) * rcontent.length
            = k * rcontent.length + rcontent.length := by ring
        show s.m_data.length + k * rcontent.length + rcontent.length
            ≤ s.m_data.length + (n - s.m_rows.length) * rcontent.length
        omega


theorem init_wf {α : Type} [Inhabited α] (v : vector2d α) (hinit : v.Init) : v.WF := by
  rcases hinit with heq | ⟨n, hmk⟩ | ⟨n, m, hmk⟩
  · subst heq
    intro q hq
    simp [vector2d.emptyV2d] at hq
  · rw [vector2d.mk_nrow] at hmk
    by_cases h0 : n = 0
    · rw [if_pos h0] at hmk
      exact absurd hmk (by simp)
    · rw [if_neg h0] at hmk
      simp only [Except.ok.injEq] at hmk
      subst hmk
      intro q hq
      rw [List.eq_of_mem_replicate hq]
      exact ⟨Nat.le_refl 0, Nat.zero_le _⟩
  · rw [vector2d.mk_nrow_ncol] at hmk
    by_cases h0 : n = 0 ∨ m = 0
    · rw [if_pos h0] at hmk
      exact absurd hmk (by simp)
    · rw [if_neg h0] at hmk
      simp only [Except.ok.injEq] at hmk
      subst hmk
      have hfold : ∀ (l : List Nat) (w : vector2d α), w.WF →
          (l.foldl (fun w2 _ => w2.push_back (List.replicate m default)) w).WF := by
        intro l
        induction l with
        | nil => exact fun w hw => hw
        | cons a t ih =>
          intro w hw
          exact ih _ (vector2d.push_back_wf w _ hw)
      refine hfold (List.range n) _ ?_
      intro q hq
      simp [vector2d.emptyV2d] at hq

/-- C4 (amended): after `compact()` the buffer's size equals the sum of all
rows' lengths, every row keeps its logical content and length, and every
row of nonzero length has its capacity shrunk to exactly its length and its
span inside the new buffer; rows of length zero are skipped by the loop and
keep their previous descriptor (stale `start_offset`/`capacity`) unchanged. -/
theorem c4_compact_spec {α : Type} (v : vector2d α) (hwf : v.WF) :
    (v.compact).m_data.length = v.nelement ∧
    List.Forall₂ (fun r r' =>
      r'.m_size = r.m_size ∧
      row_content (v.compact).m_data r' = row_content v.m_data r ∧
      (r.m_size ≠ 0 → r'.m_capacity = r'.m_size ∧
        r'.m_begin_index + r'.m_capacity ≤ (v.compact).m_data.length) ∧
      (r.m_size = 0 → r' = r)) v.m_rows (v.compact).m_rows := by
  have hwf' : ∀ r ∈ v.m_rows, r.m_begin_index + r.m_size ≤ v.m_data.length := by
    intro r hr
    obtain ⟨ha, hb⟩ := hwf r hr
    omega
  obtain ⟨hdata, hrel⟩ := compact_go_spec v.m_data v.m_rows [] hwf'
  have hceq : (v.compact).m_data = (compact_go v.m_data v.m_rows []).1 := rfl
  have hreq : (v.compact).m_rows = (compact_go v.m_data v.m_rows []).2 := rfl
  rw [hceq, hreq]
  constructor
  · rw [hdata, List.nil_append, flatten_content_length v.m_data v.m_rows hwf',
      vector2d.nelement, foldl_size_eq]
    omega
  · refine List.Forall₂.imp ?_ hrel
    intro a b hab
    obtain ⟨hsz, hemp, hne, hcont⟩ := hab
    refine ⟨hsz, hcont, fun h => ?_, hemp⟩
    obtain ⟨hcap, hspan⟩ := hne h
    exact ⟨by omega, by omega⟩

/-- C4 (counterexample): the claim as stated requires every row's capacity to
equal its length after `compact()`, including rows of length zero.  A row
that held two elements and was then cleared keeps capacity 2 after
compaction (the loop skips empty rows), and its stale span even exceeds the
rebuilt buffer. -/
theorem c4_counterexample :
    ¬ (∀ r ∈ ((((vector2d.emptyV2d Int).push_back [1, 2]).setRow 0
        (row_type.clear ⟨0, 2, 2⟩)
        (((vector2d.emptyV2d Int).push_back [1, 2]).m_data)).compact).m_rows,
      r.m_capacity = r.m_size) := by
  decide

/-- C4 (witness): a structure with rows `[1,2]` and `[3]` and well-formed
descriptors satisfies the amended compaction contract; in particular the
rebuilt buffer has exactly `nelement` slots. -/
theorem c4_witness :
    (vector2d.WF ⟨[⟨0, 2, 2⟩, ⟨2, 1, 1⟩], ([1, 2, 3] : List Int)⟩) ∧
    (vector2d.compact ⟨[⟨0, 2, 2⟩, ⟨2, 1, 1⟩], ([1, 2, 3] : List Int)⟩).m_data.length
        = vector2d.nelement ⟨[⟨0, 2, 2⟩, ⟨2, 1, 1⟩], ([1, 2, 3] : List Int)⟩ :=
  ⟨by decide,
   (c4_compact_spec ⟨[⟨0, 2, 2⟩, ⟨2, 1, 1⟩], ([1, 2, 3] : List Int)⟩ (by decide)).1⟩

/-- C1: for a well-formed row of length `L`, every position `pos ≤ L` and any
range of values, `insert` succeeds and produces the old prefix `[0, pos)`
followed by the inserted values followed by the old suffix `[pos, L)`, with
the length grown by the range size, returning the offset of the first
inserted element; an empty range leaves row and buffer unchanged and returns
`pos`. -/
theorem c1_row_insert {α : Type} [Inhabited α] (r : row_type) (data : List α)
    (diff : Nat) (vals : List α)
    (h1 : r.m_size ≤ r.m_capacity) (h2 : r.m_begin_index + r.m_capacity ≤ data.length)
    (h3 : diff ≤ r.m_size) :
    ∃ r' data', r.insert data diff vals = .ok (r', data', diff) ∧
      r'.m_size = r.m_size + vals.length ∧
      r'.m_size ≤ r'.m_capacity ∧
      r'.m_begin_index + r'.m_capacity ≤ data'.length ∧
      data.length ≤ data'.length ∧
      row_content data' r' =
        (row_content data r).take diff ++ vals ++ (row_content data r).drop diff ∧
      (vals.length = 0 → r' = r ∧ data' = data) :=
  row_type.insert_spec r data diff vals h1 h2 h3

/-- C1 (witness): a row `[1,2,3]` with capacity 3; `insert` at offset 1 of
the range `{9, 9}` yields content `[1,9,9,2,3]` of length 5. -/
theorem c1_witness :
    1 ≤ (⟨0, 3, 3⟩ : row_type).m_size ∧
    ∃ r' data', row_type.insert (⟨0, 3, 3⟩ : row_type) ([1, 2, 3] : List Int) 1 [9, 9]
        = .ok (r', data', 1) ∧ row_content data' r' = [1, 9, 9, 2, 3] ∧ r'.m_size = 5 := by
  obtain ⟨r', d', heq, hsz, -, -, -, hcont, -⟩ :=
    c1_row_insert (⟨0, 3, 3⟩ : row_type) ([1, 2, 3] : List Int) 1 [9, 9]
      (by decide) (by decide) (by decide)
  refine ⟨by decide, r', d', heq, ?_, ?_⟩
  · rw [hcont]
    rfl
  · rw [hsz]
    rfl

/-- C2: for a well-formed row, `push_back` grows the length by one, appends
the value after the existing elements, and keeps capacity at least the new
length; when the row was full and not the tail occupant, the buffer grows by
`length + 1` slots and the row is relocated to the new tail. -/
theorem c2_row_push_back {α : Type} [Inhabited α] (r : row_type) (data : List α)
    (value : α)
    (h1 : r.m_size ≤ r.m_capacity) (h2 : r.m_begin_index + r.m_capacity ≤ data.length) :
    ∃ r' data', r.push_back data value = (r', data') ∧
      r'.m_size = r.m_size + 1 ∧
      r'.m_size ≤ r'.m_capacity ∧
      r'.m_begin_index + r'.m_capacity ≤ data'.length ∧
      data.length ≤ data'.length ∧
      row_content data' r' = row_content data r ++ [value] ∧
      (r.m_size = r.m_capacity ∧ r.m_begin_index + r.m_size ≠ data.length →
        data'.length = data.length + r.m_size + 1 ∧
        r'.m_begin_index = data'.length - (r.m_size + 1)) :=
  row_type.push_back_spec r data value h1 h2

/-- C2 (witness): a row with capacity 2, length 2, values `[1,2]`;
`push_back(3)` yields length 3, values `[1,2,3]`, and capacity at least 3. -/
theorem c2_witness :
    (⟨0, 2, 2⟩ : row_type).m_size ≤ (⟨0, 2, 2⟩ : row_type).m_capacity ∧
    ∃ r' data', row_type.push_back (⟨0, 2, 2⟩ : row_type) ([1, 2] : List Int) 3
        = (r', data') ∧ r'.m_size = 3 ∧ row_content data' r' = [1, 2, 3] ∧
      3 ≤ r'.m_capacity := by
  obtain ⟨r', d', heq, hsz, hsc, -, -, hcont, -⟩ :=
    c2_row_push_back (⟨0, 2, 2⟩ : row_type) ([1, 2] : List Int) 3
      (by decide) (by decide)
  refine ⟨by decide, r', d', heq, by rw [hsz], ?_, by rw [hsz] at hsc; exact hsc⟩
  rw [hcont]
  rfl

/-- C3: for a well-formed row of length `L` and offsets
`first ≤ last ≤ L`, `erase` succeeds, leaves the prefix `[0, first)` followed
by the suffix `[last, L)`, shrinks the length by `last - first`, keeps the
offset and the capacity, and returns the offset `first`; an empty range
changes nothing. -/
theorem c3_row_erase {α : Type} [Inhabited α] (r : row_type) (data : List α)
    (fdiff ldiff : Nat)
    (h1 : r.m_size ≤ r.m_capacity) (h2 : r.m_begin_index + r.m_capacity ≤ data.length)
    (hfl : fdiff ≤ ldiff) (hl : ldiff ≤ r.m_size) :
    ∃ r' data', r.erase data fdiff ldiff = .ok (r', data', fdiff) ∧
      r'.m_begin_index = r.m_begin_index ∧
      r'.m_size = r.m_size - (ldiff - fdiff) ∧
      r'.m_capacity = r.m_capacity ∧
      data'.length = data.length ∧
      row_content data' r' =
        (row_content data r).take fdiff ++ (row_content data r).drop ldiff ∧
      (fdiff = ldiff → r' = r ∧ data' = data) :=
  row_type.erase_spec r data fdiff ldiff h1 h2 hfl hl

/-- C3 (witness): a row with values `[1,2,3,4,5]`; erasing offsets `[1, 3)`
yields values `[1,4,5]`, length 3, and the capacity is unchanged. -/
theorem c3_witness :
    1 ≤ (3 : Nat) ∧
    ∃ r' data', row_type.erase (⟨0, 5, 5⟩ : row_type) ([1, 2, 3, 4, 5] : List Int) 1 3
        = .ok (r', data', 1) ∧ row_content data' r' = [1, 4, 5] ∧ r'.m_size = 3 ∧
      r'.m_capacity = 5 := by
  obtain ⟨r', d', heq, -, hsz, hcap, -, hcont, -⟩ :=
    c3_row_erase (⟨0, 5, 5⟩ : row_type) ([1, 2, 3, 4, 5] : List Int) 1 3
      (by decide) (by decide) (by decide) (by decide)
  refine ⟨by decide, r', d', heq, ?_, by rw [hsz]; rfl, by rw [hcap]⟩
  rw [hcont]
  rfl

/-- C5: for a well-formed row, `reserve(n)` is an exact no-op (descriptor and
buffer unchanged) when `n` is at most the capacity, and otherwise sets the capacity to
exactly `n` while preserving the row's length and logical content. -/
theorem c5_row_reserve {α : Type} [Inhabited α] (r : row_type) (data : List α)
    (n : Nat)
    (h1 : r.m_size ≤ r.m_capacity) (h2 : r.m_begin_index + r.m_capacity ≤ data.length) :
    (n ≤ r.m_capacity → r.reserve data n = (r, data)) ∧
    (r.m_capacity < n → ∃ r' data', r.reserve data n = (r', data') ∧
      r'.m_capacity = n ∧ r'.m_size = r.m_size ∧
      r'.m_size ≤ r'.m_capacity ∧ r'.m_begin_index + r'.m_capacity ≤ data'.length ∧
      data.length ≤ data'.length ∧
      row_content data' r' = row_content data r) :=
  row_type.reserve_spec r data n h1 h2

/-- C5 (witness): a row of length 2 and capacity 3 inside a 3-slot buffer;
`reserve 3` is a no-op, and `reserve 5` grows the capacity to exactly 5 while
keeping the length 2 and the content `[1,2]`. -/
theorem c5_witness :
    (3 ≤ (3 : Nat) ∧
      row_type.reserve (⟨0, 2, 3⟩ : row_type) ([1, 2, 9] : List Int) 3
        = (⟨0, 2, 3⟩, [1, 2, 9])) ∧
    (3 < (5 : Nat) ∧
      ∃ r' data', row_type.reserve (⟨0, 2, 3⟩ : row_type) ([1, 2, 9] : List Int) 5
          = (r', data') ∧ r'.m_capacity = 5 ∧ r'.m_size = 2 ∧
        row_content data' r' = [1, 2]) := by
  have h := c5_row_reserve (⟨0, 2, 3⟩ : row_type) ([1, 2, 9] : List Int) 5
    (by decide) (by decide)
  have h3 := c5_row_reserve (⟨0, 2, 3⟩ : row_type) ([1, 2, 9] : List Int) 3
    (by decide) (by decide)
  refine ⟨⟨by decide, h3.1 (by decide)⟩, by decide, ?_⟩
  obtain ⟨r', d', heq, hcap, hsz, -, -, -, hcont⟩ := h.2 (by decide)
  refine ⟨r', d', heq, hcap, hsz, ?_⟩
  rw [hcont]
  rfl

/-- C6 (amended): newly constructed structures are well-formed
(`length ≤ capacity` and `start_offset + capacity ≤ buffer size` for every
row), well-formedness implies the specified invariant, and every public
operation other than `compact()` — with the structure-level `resize`
restricted to template rows carrying no spare capacity — preserves it. -/
theorem c6_invariant_preservation {α : Type} [Inhabited α] :
    (∀ v : vector2d α, v.Init → v.WF) ∧
    (∀ v : vector2d α, v.WF → v.Inv) ∧
    (∀ v v' : vector2d α, v.WF → StepNC v v' → v'.WF) :=
  ⟨init_wf, fun _ h r hr => (h r hr).2, stepNC_preserves_wf⟩

/-- C6 (witness): the empty structure is well-formed and pushing the row
`[1]` preserves well-formedness. -/
theorem c6_witness :
    (vector2d.emptyV2d Int).WF ∧ ((vector2d.emptyV2d Int).push_back [1]).WF := by
  have h0 : (vector2d.emptyV2d Int).WF := by
    intro q hq
    simp [vector2d.emptyV2d] at hq
  exact ⟨h0, (c6_invariant_preservation (α := Int)).2.2 _ _ h0 (StepNC.push_back _ [1])⟩

/-- C6 (counterexample): two reachable states violate
`start_offset + capacity ≤ buffer.size()`.  First, pushing the row `[1,2]`,
clearing it, and compacting leaves the skipped empty row with its stale
capacity 2 over an empty buffer.  Second, growing the row count with a
template row of length 1 but capacity 2 copies the template's spare capacity
into the new tail row, whose span then exceeds the buffer. -/
theorem c6_counterexample :
    (Relation.ReflTransGen Step (vector2d.emptyV2d Int)
        ((((vector2d.emptyV2d Int).push_back [1, 2]).setRow 0
            (row_type.clear ⟨0, 2, 2⟩)
            (((vector2d.emptyV2d Int).push_back [1, 2]).m_data)).compact) ∧
      ¬ ((((vector2d.emptyV2d Int).push_back [1, 2]).setRow 0
            (row_type.clear ⟨0, 2, 2⟩)
            (((vector2d.emptyV2d Int).push_back [1, 2]).m_data)).compact).Inv) ∧
    (Relation.ReflTransGen Step (vector2d.emptyV2d Int)
        ((vector2d.emptyV2d Int).resizeRows 1 [1] 2) ∧
      ¬ ((vector2d.emptyV2d Int).resizeRows 1 [1] 2).Inv) := by
  refine ⟨⟨?_, by decide⟩, ?_, by decide⟩
  · exact Relation.ReflTransGen.head (Step.push_back _ [1, 2])
      (Relation.ReflTransGen.head (Step.row_clear _ 0 ⟨0, 2, 2⟩ rfl)
        (Relation.ReflTransGen.single (Step.compact _)))
  · exact Relation.ReflTransGen.single (Step.resize_rows _ 1 [1] 2 (by decide))

/-- C7: for a well-formed row, inserting a range at a valid position and then
erasing exactly the inserted range `[pos, pos + |r|)` restores the row's
prior logical content and length. -/
theorem c7_round_trip {α : Type} [Inhabited α] (r : row_type) (data : List α)
    (diff : Nat) (vals : List α)
    (h1 : r.m_size ≤ r.m_capacity) (h2 : r.m_begin_index + r.m_capacity ≤ data.length)
    (h3 : diff ≤ r.m_size) :
    ∃ r1 d1 r2 d2, r.insert data diff vals = .ok (r1, d1, diff) ∧
      r1.erase d1 diff (diff + vals.length) = .ok (r2, d2, diff) ∧
      row_content d2 r2 = row_content data r ∧ r2.m_size = r.m_size :=
  insert_erase_round_trip r data diff vals h1 h2 h3

/-- C7 (witness): inserting `[9,9]` at offset 1 of the row `[1,2,3]` and then
erasing offsets `[1,3)` restores content `[1,2,3]` and length 3. -/
theorem c7_witness :
    1 ≤ (⟨0, 3, 3⟩ : row_type).m_size ∧
    ∃ r1 d1 r2 d2,
      row_type.insert (⟨0, 3, 3⟩ : row_type) ([1, 2, 3] : List Int) 1 [9, 9]
        = .ok (r1, d1, 1) ∧
      row_type.erase r1 d1 1 3 = .ok (r2, d2, 1) ∧
      row_content d2 r2 = [1, 2, 3] ∧ r2.m_size = 3 := by
  obtain ⟨r1, d1, r2, d2, heq1, heq2, hcont, hsz⟩ :=
    c7_round_trip (⟨0, 3, 3⟩ : row_type) ([1, 2, 3] : List Int) 1 [9, 9]
      (by decide) (by decide) (by decide)
  exact ⟨by decide, r1, d1, r2, d2, heq1, heq2, by rw [hcont]; rfl,
    by rw [hsz]⟩

/-- C8: the invalid-range check of `erase` compares the unsigned range length
against zero and therefore never fires; an erase whose `last` precedes its
`first` (both in bounds) is not rejected — on the row `[1,2,3]` with
`first = begin + 2` and `last = begin + 1` the model reaches the mutation
phase and returns a corrupted descriptor of length 4 instead of failing (in
C++ the destructor loop over `[first, last)` does not terminate). -/
theorem c8_reversed_range_not_rejected :
    (∀ range : Nat, (range < 0) = False) ∧
    row_type.erase (⟨0, 3, 3⟩ : row_type) ([1, 2, 3] : List Int) 2 1
      = .ok (⟨0, 4, 4⟩, [1, 2, 2], 2) := by
  constructor
  · intro range
    simp
  · rfl

/-- C9 (amended): the structure-level `erase` rejects any row position beyond
`rowCount` with an out-of-range error before touching anything (the
structure-level `insert` performs no such check, see the counterexample). -/
theorem c9_erase_rows_out_of_range {α : Type} (v : vector2d α) (fdiff ldiff : Nat)
    (h : fdiff > v.m_rows.length ∨ ldiff > v.m_rows.length) :
    v.eraseRows fdiff ldiff = .error .out_of_range := by
  unfold vector2d.eraseRows
  rcases h with h | h
  · rw [if_pos h]
  · by_cases hf : fdiff > v.m_rows.length
    · rw [if_pos hf]
    · rw [if_neg hf, if_pos h]

/-- C9 (witness): erasing the row range `[2, 2)` of a one-row structure fails
with an out-of-range error. -/
theorem c9_witness :
    2 > (vector2d.mk (α := Int) [⟨0, 1, 1⟩] [1]).m_rows.length ∧
    vector2d.eraseRows (vector2d.mk (α := Int) [⟨0, 1, 1⟩] [1]) 2 2
      = .error .out_of_range :=
  ⟨by decide,
   c9_erase_rows_out_of_range (vector2d.mk (α := Int) [⟨0, 1, 1⟩] [1]) 2 2
     (Or.inl (by decide))⟩

/-- C9 (counterexample): the structure-level `insert` at row position 2 of a
one-row structure raises no error (its translation has no error outcome,
matching the unchecked `m_rows.insert`) and has already committed the buffer
mutation: the shared buffer becomes `[1, 5]` although the position is out of
range. -/
theorem c9_counterexample :
    (vector2d.insertRow ⟨[⟨0, 1, 1⟩], ([1] : List Int)⟩ 2 [5]).m_data = [1, 5] := by
  decide

/-- C10: for a row with `length ≤ capacity`, `pop_back` on a non-empty row
decrements the length by exactly one and keeps `start_offset` and `capacity`;
there is no emptiness check, and on an empty row the unsigned `0 - 1` wraps
to `2^64 - 1`. -/
theorem c10_row_pop_back (r : row_type) (h1 : r.m_size ≤ r.m_capacity) :
    (0 < r.m_size → r.pop_back = ⟨r.m_begin_index, r.m_size - 1, r.m_capacity⟩) ∧
    (r.m_size = 0 → r.pop_back.m_size = USZ - 1) :=
  row_type.pop_back_spec r h1

/-- C10 (witness): popping the last element of a row of length 2 and
capacity 3 yields length 1 with offset and capacity unchanged, and popping an
empty row wraps the length to `2^64 - 1`. -/
theorem c10_witness :
    (0 < (2 : Nat) ∧ row_type.pop_back ⟨0, 2, 3⟩ = ⟨0, 1, 3⟩) ∧
    (row_type.pop_back (⟨7, 0, 3⟩ : row_type)).m_size = USZ - 1 :=
  ⟨⟨by decide, (c10_row_pop_back ⟨0, 2, 3⟩ (by decide)).1 (by decide)⟩,
   (c10_row_pop_back ⟨7, 0, 3⟩ (by decide)).2 rfl⟩

end ollib
